import Mathlib

/-!
# api-registry: verification of the candidate-selection and registry
# reconciliation engine

A shallow embedding of the registry core of the `api-registry` repository
(`src/unnamed/part_000`, `src/commands.js`), together with proofs of the
spec's claims about it.

JavaScript objects (used as string-keyed maps with insertion order) are
embedded as association lists `List (String × α)`:
  * property read  `o[k]`        becomes `objGet k o`,
  * property write `o[k] = v`    becomes `objSet k v o` (update in place if
    the key exists, otherwise append — JS insertion-order semantics),
  * `delete o[k]`                becomes `objDelete k o`,
  * `Object.keys(o)`             becomes `objKeys o`.
`Map` values (`drivers` in the source) have the same `get`/`set` semantics,
so they reuse the same operations.
-/

namespace ApiRegistry

/-- `o[k]` — first binding of key `k` (JS object keys are unique, so "first"
is "the" binding). -/
def objGet (k : String) : List (String × α) → Option α
  | [] => none
  | (k', v) :: t => if k' = k then some v else objGet k t

/-- `o[k] = v` — overwrite the binding in place if present, else append
(JS objects preserve insertion order; an overwrite keeps the position). -/
def objSet (k : String) (v : α) : List (String × α) → List (String × α)
  | [] => [(k, v)]
  | (k', v') :: t => if k' = k then (k, v) :: t else (k', v') :: objSet k v t

/-- `delete o[k]` — remove the binding for `k`.  JS objects never hold a
duplicate key, so removing every match agrees with deleting the one. -/
def objDelete (k : String) : List (String × α) → List (String × α)
  | [] => []
  | (k', v) :: t => if k' = k then objDelete k t else (k', v) :: objDelete k t

/-- `Object.keys(o)`. -/
def objKeys (l : List (String × α)) : List String :=
  l.map Prod.fst

end ApiRegistry

namespace ApiRegistry

/-! ## Data model (§3 of the spec, `src/unnamed/part_000`)

`metadata` is the Registry: provider name → Provider record.  A Provider's
`apis` maps service names to Services; a Service maps version strings to
VersionEntry records.  In the JS source a service-level patch document is
stored under the reserved key `'patch'` of the same object that holds the
versions, and every registry walk guards with `version !== 'patch'`; the
embedding stores that payload in a dedicated `patch` field of `Service` and
keeps the guards, which is equivalent because the guards skip exactly that
reserved key. -/

/-- A primitive JS value, as far as the registry core inspects one
(`typeof x == 'boolean'` tests, `=== true` tests, plain strings). -/
inductive JsPrim where
  | jsBool (b : Bool)
  | jsStr (s : String)
  | jsNum (n : Int)
deriving DecidableEq

/-- One element of an `x-origin` chain: `{url, format, version}`. -/
structure Source where
  url : Option String := none
  format : Option String := none
  version : Option String := none
deriving DecidableEq

/-- A patch overlay document; the core only stores it, checks
`Object.keys(...).length > 0` and deletes it, so a shallow JSON object
of string fields suffices. -/
abbrev DocPatch : Type := List (String × String)

instance : DecidableEq DocPatch := inferInstanceAs (DecidableEq (List (String × String)))

/-- A VersionEntry (`metadata[provider].apis[service][version]`).  The
fields are exactly the properties the registry core reads or writes; any
field may be absent (`undefined`), hence `Option`. -/
structure VersionEntry where
  name : Option String := none
  openapi : Option String := none
  preferred : Option JsPrim := none
  unofficial : Option JsPrim := none
  filename : Option String := none
  source : Source := {}
  history : List Source := []
  hash : Option String := none
  run : Option String := none
  added : Option String := none
  cached : Option String := none
  statusCode : Option Nat := none
  mediatype : Option String := none
  updated : Option String := none
  /-- the transient version-level `patch` key deleted at
  `populateMetadata`'s line `delete metadata[p].apis[s][version].patch`. -/
  patchAtVersion : Option DocPatch := none
deriving DecidableEq

/-- A Service: version string → VersionEntry, plus the service-level
patch payload (stored under the reserved `'patch'` key in the source). -/
structure Service where
  vers : List (String × VersionEntry) := []
  patch : Option DocPatch := none
deriving DecidableEq

/-- A Provider record (`metadata[provider]`). -/
structure Provider where
  driver : String := "url"
  apis : List (String × Service) := []
  patch : Option DocPatch := none
  host : Option String := none
  /-- per-run driver scratch buffer, deleted on ingestion and on save. -/
  data : Option (List (String × String)) := none
deriving DecidableEq

/-- The Registry: provider name → Provider. -/
abbrev Registry : Type := List (String × Provider)

instance : DecidableEq Registry := inferInstanceAs (DecidableEq (List (String × Provider)))

/-- The slice of a parsed document that `gather` keeps
(`apis[filename] = { swagger, openapi, info, hash }`) plus the optional
patch payloads `populateMetadata` looks for. -/
structure ApiInfo where
  version : String := ""
  xServiceName : Option String := none
  xProviderName : Option String := none
  xPreferred : Option JsPrim := none
  xUnofficialSpec : Option JsPrim := none
  xOrigin : Option (List Source) := none
deriving DecidableEq

structure Api where
  swagger : Option String := none
  openapi : Option String := none
  info : ApiInfo := {}
  hash : String := ""
  patch : Option DocPatch := none
  parentPatch : Option DocPatch := none
deriving DecidableEq

/-- The discovered-documents map produced by `gather`, keyed by file path. -/
abbrev ApiMap : Type := List (String × Api)

instance : DecidableEq ApiMap := inferInstanceAs (DecidableEq (List (String × Api)))

/-- The run options the registry core reads (`argv.driver`, `argv.small`). -/
structure Argv where
  driver : Option String := none
  small : Bool := false
deriving DecidableEq

/-- A Candidate: the runtime join of a VersionEntry with its ancestry.
In the JS source `parent`, `gp` and `md` are live references into the
Registry tree; the embedding carries their values. -/
structure Candidate where
  provider : String := ""
  driver : String := "url"
  service : String := ""
  version : String := ""
  parent : Service := {}
  gp : Provider := {}
  md : VersionEntry := {}
  info : Option ApiInfo := none
deriving DecidableEq

/-- A Lead (`leads[url] = { service, provider?, preferred?, file? }`). -/
structure Lead where
  service : Option String := none
  provider : Option String := none
  preferred : Option JsPrim := none
  file : Option String := none
deriving DecidableEq

abbrev Leads : Type := List (String × Lead)

instance : DecidableEq Leads := inferInstanceAs (DecidableEq (List (String × Lead)))

/-- A Failure Ledger record (`{ status, error, context }`). -/
structure FailRec where
  status : Option Nat := none
  error : String := ""
  context : Option String := none
deriving DecidableEq

/-- The Failure Ledger: provider → service → version → FailRec. -/
abbrev Failures : Type := List (String × List (String × List (String × FailRec)))

instance : DecidableEq (List (String × FailRec)) :=
  inferInstanceAs (DecidableEq (List (String × FailRec)))

instance : DecidableEq (List (String × List (String × FailRec))) :=
  inferInstanceAs (DecidableEq (List (String × List (String × FailRec))))

instance : DecidableEq Failures :=
  inferInstanceAs (DecidableEq (List (String × List (String × List (String × FailRec)))))

/-- The driver-grouping map (`drivers : Map driver → Map provider →
Provider`); JS `Map.set` has the same update-in-place-or-append
behaviour as `objSet`. -/
abbrev Drivers : Type := List (String × List (String × Provider))

instance : DecidableEq Drivers :=
  inferInstanceAs (DecidableEq (List (String × List (String × Provider))))

/-- `path.relative('.', 'APIs')` evaluated in the repository root. -/
def defaultPathSpec : String := "APIs"

/-- `const defaultVersion = '1.0.0'` (src/commands.js). -/
def defaultVersion : String := "1.0.0"

/-- JS coerces a non-string object key to a string; the only non-string
key the core can produce is `undefined`, which becomes `"undefined"`. -/
def keyOf : Option String → String
  | some s => s
  | none => "undefined"

/-- JS string truthiness of a possibly-absent string
(`undefined` and `''` are falsy). -/
def isTruthyStr : Option String → Bool
  | none => false
  | some s => !(s = "")

/-! JS string primitives, modelled on the character-list level (the JS
engine operates on code units; for the ASCII paths and version strings
the registry handles the two views agree). -/

/-- `s.startsWith(pre)`. -/
def jsStartsWith (s pre : String) : Bool :=
  pre.data.isPrefixOf s.data

/-- Split a character list on a non-empty separator occurrence by
occurrence (the accumulator holds the current piece, reversed).  The
`fuel` argument, initialized to the list length, makes the recursion
structural — a non-empty separator consumes at least one character per
emitted piece, so the fuel never runs out. -/
def splitCharsFuel (sep : List Char) : Nat → List Char → List Char → List (List Char)
  | _, [], acc => [acc.reverse]
  | 0, l, acc => [acc.reverse ++ l]
  | fuel + 1, c :: cs, acc =>
    if sep.isPrefixOf (c :: cs) ∧ sep ≠ [] then
      acc.reverse :: splitCharsFuel sep fuel ((c :: cs).drop sep.length) []
    else
      splitCharsFuel sep fuel cs (c :: acc)

def splitChars (sep l : List Char) : List (List Char) :=
  splitCharsFuel sep l.length l []

/-- `s.split(sep)` for a non-empty string separator (the only kind the
registry core uses). -/
def jsSplit (s sep : String) : List String :=
  (splitChars sep.data s.data).map fun l => ⟨l⟩

/-- `parts.join(sep)`. -/
def jsJoin (sep : String) (parts : List String) : String :=
  ⟨(List.intersperse sep.data (parts.map String.data)).flatten⟩

end ApiRegistry

namespace ApiRegistry

/-! ## Metadata Reconciler — `populateMetadata` (part_000 lines 472–546)

`path.relative('.', ·)` is a Node library call; the embedding passes it in
as a parameter `rel`. -/

/-- `md.filename?.startsWith(pathspec)` — optional chaining: an absent
filename is falsy. -/
def filenameStartsWith : Option String → String → Bool
  | some f, ps => jsStartsWith f ps
  | none, _ => false

/-- The marking applied to one entry in the fast-processing branch:
`if (md.filename?.startsWith(pathspec) && (!argv.small ||
Object.keys(metadata[provider].apis).length < 50)) md.run = now`. -/
def markEntry (pathspec : String) (small : Bool) (numServices : Nat) (now : String)
    (md : VersionEntry) : VersionEntry :=
  if filenameStartsWith md.filename pathspec && (!small || decide (numServices < 50)) then
    { md with run := some now }
  else md

def markSvc (pathspec : String) (small : Bool) (numServices : Nat) (now : String)
    (svc : Service) : Service :=
  { svc with vers := svc.vers.map (fun ve =>
      (ve.1, if ve.1 ≠ "patch" then markEntry pathspec small numServices now ve.2 else ve.2)) }

def markProv (pathspec : String) (small : Bool) (now : String) (p : Provider) : Provider :=
  { p with apis := p.apis.map (fun sv =>
      (sv.1, markSvc pathspec small (objKeys p.apis).length now sv.2)) }

/-- The `if (Object.keys(apis).length === 0)` marking loop of
`populateMetadata`: walk every provider/service/version (skipping the
reserved `patch` key) and set `run = now` on the in-scope entries. -/
def markPhase (pathspec : String) (small : Bool) (now : String) (metadata : Registry) :
    Registry :=
  metadata.map (fun pp => (pp.1, markProv pathspec small now pp.2))

/-- `clone(api.info['x-origin']) || [{}]` — an absent origin chain defaults
to a single empty source.  (For the degenerate `x-origin: []` the JS
`origin.pop()` yields `undefined`; the embedding substitutes the empty
source there, a case the repository's data never produces.) -/
def originOf (info : ApiInfo) : List Source :=
  match info.xOrigin with
  | some l => l
  | none => [{}]

/-- The `(providerName, serviceName, version)` keys a discovered document
is filed under: `filename = path.relative('.', filename)`, the path is
split on `/`, its last component is the on-disk `name`, the one before it
the version; service and provider names come from the document's
`x-serviceName` (defaulted to `''`) and `x-providerName`. -/
def ingestKeys (rel : String → String) (filename0 : String) (api : Api) :
    String × String × String :=
  let filename := rel filename0
  let comp := jsSplit filename "/"
  let version := keyOf comp.dropLast.getLast?
  let serviceName := api.info.xServiceName.getD ""
  let providerName := keyOf api.info.xProviderName
  (providerName, serviceName, version)

/-- The fresh `entry` record built for a discovered document
(part_000 lines 509–519). -/
def entryOf (now : String) (rel : String → String) (filename0 : String) (api : Api) :
    VersionEntry :=
  let filename := rel filename0
  let comp := jsSplit filename "/"
  let name := keyOf comp.getLast?
  let origin := originOf api.info
  let source := origin.getLast?.getD {}
  let history := origin.dropLast
  { name := some name
    openapi := api.openapi.orElse (fun _ => api.swagger)
    preferred := api.info.xPreferred
    unofficial := api.info.xUnofficialSpec
    filename := some filename
    source := source
    history := history
    hash := some api.hash
    run := some now }

/-- `Object.assign({}, old, entry)`: the nine own properties of the
`entry` literal overwrite (JS copies own properties even when their value
is `undefined`); every other field survives from the old entry. -/
def assignEntry (old : VersionEntry) (e : VersionEntry) : VersionEntry :=
  { e with
    added := old.added
    cached := old.cached
    statusCode := old.statusCode
    mediatype := old.mediatype
    updated := old.updated
    patchAtVersion := old.patchAtVersion }

/-- The merged entry stored at the target key: shallow overlay, then the
added-once default, then `delete ...patch` at version level. -/
def mergedEntryOf (now : String) (rel : String → String) (filename0 : String) (api : Api)
    (old : Option VersionEntry) : VersionEntry :=
  let e := entryOf now rel filename0 api
  let merged := assignEntry (old.getD {}) e
  let merged := if merged.added = none then { merged with added := some now } else merged
  { merged with patchAtVersion := none }

/-- `if (api.parentPatch && Object.keys(api.parentPatch).length > 0)
metadata[providerName].patch = api.parentPatch` — patches are replaced,
not merged. -/
def applyParentPatch (api : Api) (p : Provider) : Provider :=
  match api.parentPatch with
  | some pp => if pp.length > 0 then { p with patch := some pp } else p
  | none => p

/-- `if (api.patch && Object.keys(api.patch).length > 0)
metadata[providerName].apis[serviceName].patch = api.patch`. -/
def applyServicePatch (api : Api) (svc : Service) : Service :=
  match api.patch with
  | some sp => if sp.length > 0 then { svc with patch := some sp } else svc
  | none => svc

/-- Ingestion of one discovered document (the body of the
`for (let filename in apis)` loop, part_000 lines 493–544). -/
def ingest (now : String) (rel : String → String) (metadata : Registry)
    (filename0 : String) (api : Api) : Registry :=
  let ks := ingestKeys rel filename0 api
  let providerName := ks.1
  let serviceName := ks.2.1
  let version := ks.2.2
  -- if (!metadata[providerName]) metadata[providerName] = Tree({driver:'url', apis:{}})
  -- (the vivified record is `{}`: the model Provider defaults are exactly
  -- `driver := "url", apis := []`)
  let m1 := match objGet providerName metadata with
    | some _ => metadata
    | none => objSet providerName {} metadata
  let p := applyParentPatch api ((objGet providerName m1).getD {})
  -- if (!metadata[providerName].apis[serviceName]) ... = {}
  let svc := applyServicePatch api ((objGet serviceName p.apis).getD {})
  -- merge into the (possibly vivified) version slot, added-once default,
  -- delete version-level patch
  let merged := mergedEntryOf now rel filename0 api (objGet version svc.vers)
  let svc2 := { svc with vers := objSet version merged svc.vers }
  -- delete metadata[providerName].data
  let p2 := { p with apis := objSet serviceName svc2 p.apis, data := none }
  objSet providerName p2 m1

/-- `populateMetadata(apis, pathspec, argv)` — marking phase when the
discovery scan found zero documents, then ingestion of each discovered
document. -/
def populateMetadata (apis : ApiMap) (pathspec : String) (argv : Argv) (now : String)
    (rel : String → String) (metadata : Registry) : Registry :=
  let m1 := if apis.length = 0 then markPhase pathspec argv.small now metadata else metadata
  apis.foldl (fun m fa => ingest now rel m fa.1 fa.2) m1

/-- `metadata[pk].apis[sk][vk]`. -/
def lookupEntry (metadata : Registry) (pk sk vk : String) : Option VersionEntry :=
  (objGet pk metadata).bind fun p =>
    (objGet sk p.apis).bind fun svc => objGet vk svc.vers

/-- One reconcile call of a sequence: its discovered documents, pathspec,
options and run token (`now` is minted once per process run). -/
structure RunCall where
  apis : ApiMap
  pathspec : String
  argv : Argv
  now : String
  rel : String → String

/-- A sequence of Metadata Reconciler calls, applied in order. -/
def runSeq (calls : List RunCall) (metadata : Registry) : Registry :=
  calls.foldl (fun m c => populateMetadata c.apis c.pathspec c.argv c.now c.rel m) metadata

end ApiRegistry

namespace ApiRegistry

/-! ## Candidate Selector — `getCandidates` (part_000 lines 562–604) -/

/-- The per-entry selection predicate of `getCandidates`:
`returnAll || (driver && driver === metadata[provider].driver) ||
(!driver && metadata[provider].apis[service][version].run === now)`
(JS string truthiness: `undefined` and `''` are falsy). -/
def selectedB (returnAll : Bool) (driver : Option String) (pdriver : String)
    (md : VersionEntry) (now : String) : Bool :=
  returnAll || (isTruthyStr driver && decide (driver = some pdriver)) ||
    (!isTruthyStr driver && decide (md.run = some now))

/-- The driver-grouping insertion of `getCandidates`: fetch the inner
provider map for this driver and `set` into it, or create a fresh
single-entry map.  JS `Map.set` mutates the inner map in place, which the
pure rendering reflects by writing the updated inner map back. -/
def driversAdd (driver pname : String) (p : Provider) (drivers : Drivers) : Drivers :=
  match objGet driver drivers with
  | some inner => objSet driver (objSet pname p inner) drivers
  | none => objSet driver [(pname, p)] drivers

/-- The Candidate record pushed for a selected entry, including the
`entry.info` enrichment from the discovered-documents map
(`apis[entry.md.filename]`). -/
def candidateOf (apis : ApiMap) (pname : String) (p : Provider) (sname : String)
    (svc : Service) (v : String) (md : VersionEntry) : Candidate :=
  { provider := pname, driver := p.driver, service := sname, version := v,
    parent := svc, gp := p, md := md,
    info := (objGet (keyOf md.filename) apis).map (fun a => a.info) }

/-- Innermost loop of `getCandidates` (`for (let version in ...)`),
threading the result list and the driver-grouping map. -/
def scanVers (ra : Bool) (drv : Option String) (now : String) (apis : ApiMap)
    (pname : String) (p : Provider) (sname : String) (svc : Service) :
    List (String × VersionEntry) → List Candidate × Drivers → List Candidate × Drivers
  | [], st => st
  | (v, md) :: rest, (acc, drivers) =>
    if v ≠ "patch" ∧ selectedB ra drv p.driver md now = true then
      scanVers ra drv now apis pname p sname svc rest
        (acc ++ [candidateOf apis pname p sname svc v md], driversAdd p.driver pname p drivers)
    else
      scanVers ra drv now apis pname p sname svc rest (acc, drivers)

/-- Middle loop of `getCandidates` (`for (let service in ...)`). -/
def scanSvcs (ra : Bool) (drv : Option String) (now : String) (apis : ApiMap)
    (pname : String) (p : Provider) :
    List (String × Service) → List Candidate × Drivers → List Candidate × Drivers
  | [], st => st
  | (sname, svc) :: rest, st =>
    scanSvcs ra drv now apis pname p rest (scanVers ra drv now apis pname p sname svc svc.vers st)

/-- Outer loop of `getCandidates` (`for (let provider in metadata)`). -/
def scanProvs (ra : Bool) (drv : Option String) (now : String) (apis : ApiMap) :
    Registry → List Candidate × Drivers → List Candidate × Drivers
  | [], st => st
  | (pname, p) :: rest, st =>
    scanProvs ra drv now apis rest (scanSvcs ra drv now apis pname p p.apis st)

/-- `returnAll = argv.driver === 'none' || (pathspec === defaultPathSpec &&
command !== 'update')`. -/
def gcReturnAll (command pathspec : String) (argv : Argv) : Bool :=
  decide (argv.driver = some "none") ||
    (decide (pathspec = defaultPathSpec) && decide (command ≠ "update"))

/-- `driver = returnAll ? undefined : argv.driver`. -/
def gcDriver (command pathspec : String) (argv : Argv) : Option String :=
  if gcReturnAll command pathspec argv then none else argv.driver

/-- `getCandidates(command, pathspec, argv)`.  The module-global `drivers`
map is threaded explicitly (it is freshly empty at process start). -/
def getCandidates (command pathspec : String) (argv : Argv) (now : String) (apis : ApiMap)
    (metadata : Registry) (drivers : Drivers) : List Candidate × Drivers :=
  scanProvs (gcReturnAll command pathspec argv) (gcDriver command pathspec argv)
    now apis metadata ([], drivers)

/-! ## Lead Reconciler — `trimLeads` (part_000 lines 606–631) -/

/-- The body of `trimLeads`'s per-candidate step: if a lead exists for the
candidate's `md.source.url`, copy `file` (made relative with
`path.relative('.', ·)`, passed in as `rel`) into `md.cached`, copy
`preferred` only when it is strictly a boolean, and delete the lead. -/
def trimStep (rel : String → String) (c : Candidate) (leads : Leads) : Candidate × Leads :=
  match objGet (keyOf c.md.source.url) leads with
  | none => (c, leads)
  | some lead =>
    let md := c.md
    -- `if (leads[url].file)` — JS truthiness: an absent or empty-string
    -- file is falsy and is not copied
    let md := match lead.file with
      | some f => if f = "" then md else { md with cached := some (rel f) }
      | none => md
    let md := match lead.preferred with
      | some (JsPrim.jsBool b) => { md with preferred := some (JsPrim.jsBool b) }
      | _ => md
    ({ c with md := md }, objDelete (keyOf c.md.source.url) leads)

/-- The `for (let candidate of candidates)` loop of `trimLeads`.  The JS
loop mutates the candidate records in place; the pure rendering returns
the updated candidate list alongside the remaining leads. -/
def trimLeadsGo (rel : String → String) :
    List Candidate → Leads → List Candidate × Leads
  | [], leads => ([], leads)
  | c :: cs, leads =>
    let r := trimStep rel c leads
    let rest := trimLeadsGo rel cs r.2
    (r.1 :: rest.1, rest.2)

/-- `trimLeads(candidates)`: the loop only runs when the shared leads map
is non-empty; the (remaining) leads map is returned either way. -/
def trimLeads (rel : String → String) (candidates : List Candidate) (leads : Leads) :
    List Candidate × Leads :=
  if 0 < leads.length then trimLeadsGo rel candidates leads else (candidates, leads)

/-! ## `update` command pieces (src/commands.js) -/

/-- `cleanseVersion(v)` (part_000 lines 361–371). -/
def cleanseVersion (v : String) : String :=
  let s1 := jsJoin "-" (jsSplit v "/")
  let s2 := jsJoin "-" (jsSplit s1 "\\")
  let s3 := jsJoin "" (jsSplit s2 ":")
  jsJoin "" (jsSplit s3 ".*")

/-- JS `String.prototype.replace` with a string pattern: replace the
first occurrence only. -/
def replFirst (pat rep : List Char) : List Char → List Char
  | [] => []
  | c :: cs =>
    if pat.isPrefixOf (c :: cs) then rep ++ (c :: cs).drop pat.length
    else c :: replFirst pat rep cs

/-- `s.replace(pat, rep)` on strings, for replacement strings free of
JS `$`-substitution patterns (the claims about it carry an explicit
no-`$` side condition where the replacement is data-dependent). -/
def jsReplace (s pat rep : String) : String :=
  ⟨replFirst pat.data rep.data s.data⟩

/-- `majorMinor(version)` (src/commands.js lines 76–79): the `2.0` special
case, then `semver.major`/`semver.minor`, which for the well-formed
versions the registry stores are the first two dot-separated components. -/
def majorMinor (version : String) : String :=
  let v := if version = "2.0" then "2.0.0" else version
  let comp := jsSplit v "."
  (comp.getD 0 "") ++ "." ++ (comp.getD 1 "")

/-- The slice of the re-fetched, validated document that the
version-rename block of `update` reads. -/
structure UDoc where
  openapi : Option String := none
  swagger : Option String := none
  info : Option ApiInfo := none
deriving DecidableEq

/-- The version-rename block of the `update` command (src/commands.js
lines 958–980).  `candidate.md` aliases `candidate.parent[candidate.version]`
in the source (the selector built it that way), so the pure rendering
computes the mutated entry first and stores it where the JS reference ends
up; the `mkdirp`/`mv` filesystem effects are not modelled.  Returns the
updated service map and entry. -/
def renameBlock (o : UDoc) (parent : List (String × VersionEntry))
    (version : String) (md : VersionEntry) : List (String × VersionEntry) × VersionEntry :=
  let openapiVer := if isTruthyStr o.openapi then o.openapi else o.swagger
  let newVersion := match o.info with
    | some i => cleanseVersion i.version
    | none => defaultVersion
  if (o.info.isSome ∧ newVersion ≠ version) ∨ openapiVer ≠ md.openapi then
    let md1 := { md with filename := md.filename.map (fun f =>
      jsReplace f ("/" ++ version ++ "/") ("/" ++ newVersion ++ "/")) }
    let md2 := if isTruthyStr o.openapi then
        { md1 with
          filename := md1.filename.map (fun f => jsReplace f "swagger.yaml" "openapi.yaml"),
          name := some "openapi.yaml",
          source := { md1.source with
            format := some "openapi",
            version := some (majorMinor (o.openapi.getD "")) } }
      else md1
    let parent1 := if newVersion ≠ version then
        -- candidate.parent[newVersion] = candidate.parent[candidate.version];
        -- delete candidate.parent[candidate.version]
        objDelete version (objSet newVersion md2 parent)
      else objSet version md2 parent
    (parent1, md2)
  else (parent, md)

/-! ## Failure Ledger — `fail` (part_000 lines 99–106) -/

/-- The auto-vivifying three-level insert
`failures[provider][service][version] = {...}`: reading the two
intermediate levels creates them when absent (`Tree` proxy), then the leaf
is assigned. -/
def failSet (failures : Failures) (provider service version : String) (r : FailRec) :
    Failures :=
  let inner1 := (objGet provider failures).getD []
  let inner2 := (objGet service inner1).getD []
  objSet provider (objSet service (objSet version r inner2) inner1) failures

/-- `fail(candidate, status, err, context)`: record the failure (latest
one per triple wins) and set `process.exitCode = 1`.  Returns the updated
ledger and the new exit code. -/
def fail (failures : Failures) (c : Candidate) (status : Option Nat)
    (errMessage : Option String) (context : Option String) : Failures × Nat :=
  (failSet failures c.provider c.service c.version
     { status := status
       error := match errMessage with | some m => m | none => ""
       context := context },
   1)

structure RespHeaders where
  contentType : Option String := none
deriving DecidableEq

structure Response where
  ok : Bool := false
  status : Nat := 0
  headers : Option RespHeaders := none
deriving DecidableEq

/-- `updatePreferredFlag(candidate, flag)` (src/commands.js lines 372–385):
re-writes `x-preferred` into the on-disk document and mirrors the flag
into `candidate.md.preferred`.  The whole body is a `try` around file
read/parse/write, abstracted by `fsOk`; when any of it throws the
candidate is left unchanged. -/
def updatePreferredFlag (fsOk : Bool) (c : Candidate) (flag : Bool) : Candidate :=
  if fsOk then { c with md := { c.md with preferred := some (JsPrim.jsBool flag) } } else c

/-- The non-OK branch of the `update` command (src/commands.js lines
1034–1050): record the flipped status code (the Slack alert is not
modelled), defensively clear a `preferred === true` flag, remember the
response media type, record the failure (which sets the process exit code
to 1) and return `false`. -/
def updateNonOk (c : Candidate) (resp : Response) (failures : Failures) (fsOk : Bool) :
    Candidate × Failures × Nat × Bool :=
  let c := if some resp.status ≠ c.md.statusCode then
      { c with md := { c.md with statusCode := some resp.status } }
    else c
  let c := if c.md.preferred = some (JsPrim.jsBool true) then updatePreferredFlag fsOk c false
    else c
  let c := match resp.headers with
    | some h => { c with md := { c.md with mediatype := h.contentType } }
    | none => c
  let fr := fail failures c (some resp.status) none none
  (c, fr.1, fr.2, false)

end ApiRegistry

namespace ApiRegistry

/-! ## Registry Store — `saveMetadata` (part_000 lines 385–438)

Serialization is delegated to external libraries (`yaml.stringify`,
`JSON.stringify`), each of which may throw; the embedding passes them in
as partial oracles (`none` = the call threw).  File writes are recorded as
events.  `process.exitCode` is `Option Nat` (`undefined` until set). -/

inductive WriteEvent where
  | registryWrite (content : String)
  /-- the `temp.js` raw debug dump taken when both serializations threw. -/
  | debugDump
  | failuresWrite (content : String)
deriving DecidableEq

/-- The module-global state `saveMetadata` touches. -/
structure SaveState where
  exitCode : Option Nat := none
  metadataConsistent : Bool := false
  metadata : Registry := []
  failures : Failures := []
deriving DecidableEq

/-- `for (let provider in metadata) delete metadata[provider].data`. -/
def stripData (m : Registry) : Registry :=
  m.map (fun pp => (pp.1, { pp.2 with data := none }))

/-- `saveMetadata(command)`: exit-code resets, the `metadataConsistent`
short-circuit, optional key-sort for the `sort` command, transient-`data`
strip, primary/secondary serialization with debug-dump fallback, the
failure-ledger side file, and the already-saved flag.  Returns the new
state, the file writes performed, and the boolean result
(`typeof metaStr === 'string'`).  (`browser.close()` is a resource
release with no registry-visible effect and is not modelled.) -/
def saveMetadata (yamlS jsonS : Registry → Option String) (failS : Failures → Option String)
    (sortFn : Registry → Registry) (command : String) (st : SaveState) :
    SaveState × List WriteEvent × Bool :=
  let ec := if st.exitCode = some 1 ∧ command = "update" then some 0 else st.exitCode
  let ec := if ec = some 99 then some 0 else ec
  if st.metadataConsistent then ({ st with exitCode := ec }, [], true)
  else
    let md0 := if command = "sort" then sortFn st.metadata else st.metadata
    let md1 := stripData md0
    let metaStr := match yamlS md1 with
      | some s => some s
      | none => jsonS md1
    let writes1 := match metaStr with
      | some s => [WriteEvent.registryWrite s]
      | none => [WriteEvent.debugDump]
    let wec := match failS st.failures with
      | some fs => (writes1 ++ [WriteEvent.failuresWrite fs], ec)
      | none => (writes1, some 3)
    let result := metaStr.isSome
    ({ st with
        exitCode := wec.2
        metadataConsistent := if result then true else st.metadataConsistent
        metadata := md1 },
     wec.1, result)

/-! ## Auto-vivifying Tree proxy (part_000 lines 70–88)

A generic `Tree()` value: a string-keyed object whose property *reads*
insert an empty sub-Tree at any absent key other than `toJSON`, `$$typeof`
and `Symbol.iterator` (the latter is not a string key and so cannot arise
here).  Values reached through a Tree are either sub-Trees or the plain
leaf records that `fail` assigns at depth 3. -/

end ApiRegistry

namespace ApiRegistry

/-! ## Derived notions used by the statements -/

/-- How one reconcile call may evolve an `added` stamp: unchanged, or
first-time set to that call's run token. -/
def addedEvolves (now : String) (a b : Option String) : Prop :=
  b = a ∨ (a = none ∧ b = some now)

/-- The (provider, service, version) identity of a Candidate. -/
def candTriple (c : Candidate) : String × String × String :=
  (c.provider, c.service, c.version)

/-- Every (provider, service, version) triple of the Registry whose
version key is not the reserved `patch` key, in registry-iteration
order. -/
def registryTriples (m : Registry) : List (String × String × String) :=
  m.flatMap fun pp => pp.2.apis.flatMap fun sv =>
    (sv.2.vers.filter (fun ve => ve.1 ≠ "patch")).map fun ve => (pp.1, sv.1, ve.1)

/-- How many of the driver-grouping map's inner provider maps contain
`pname` (a JS `Map` cannot repeat a key, so this counts the groupings
that mention the provider). -/
def inDrivers (pname : String) (drivers : Drivers) : Nat :=
  (drivers.map fun di => if (objGet pname di.2).isSome then 1 else 0).sum

/-- Whether at least one of the provider's versions satisfies the
selection predicate of `getCandidates` (skipping the reserved `patch`
key). -/
def providerHasSelected (ra : Bool) (drv : Option String) (now : String) (p : Provider) :
    Bool :=
  p.apis.any fun sv => sv.2.vers.any fun ve =>
    decide (ve.1 ≠ "patch") && selectedB ra drv p.driver ve.2 now

/-- The leads-map key a candidate is matched under
(`leads[candidate.md.source.url]`). -/
def urlKey (c : Candidate) : String :=
  keyOf c.md.source.url

/-- What `trimLeads` does to one candidate given the lead found (or not)
under its url: the specification-side restatement of `trimStep`'s update. -/
def applyLead (rel : String → String) (c : Candidate) : Option Lead → Candidate
  | none => c
  | some lead =>
    let md := c.md
    -- `if (leads[url].file)` — JS truthiness: an absent or empty-string
    -- file is falsy and is not copied
    let md := match lead.file with
      | some f => if f = "" then md else { md with cached := some (rel f) }
      | none => md
    let md := match lead.preferred with
      | some (JsPrim.jsBool b) => { md with preferred := some (JsPrim.jsBool b) }
      | _ => md
    { c with md := md }

/-- `pat` occurs in `l` at position `i`. -/
def occursAt (pat l : List Char) (i : Nat) : Prop :=
  pat <+: l.drop i

instance (pat l : List Char) (i : Nat) : Decidable (occursAt pat l i) :=
  inferInstanceAs (Decidable (pat <+: l.drop i))

/-! ## Association-list facts -/

@[simp] theorem objGet_nil (k : String) : objGet k ([] : List (String × α)) = none := rfl

@[simp] theorem objGet_cons (k k' : String) (v : α) (t : List (String × α)) :
    objGet k ((k', v) :: t) = if k' = k then some v else objGet k t := rfl

@[simp] theorem objSet_nil (k : String) (v : α) : objSet k v ([] : List (String × α)) = [(k, v)] := rfl

@[simp] theorem objSet_cons (k k' : String) (v v' : α) (t : List (String × α)) :
    objSet k v ((k', v') :: t) =
      if k' = k then (k, v) :: t else (k', v') :: objSet k v t := rfl

theorem objGet_objSet_self (k : String) (v : α) (l : List (String × α)) :
    objGet k (objSet k v l) = some v := by
  induction l with
  | nil => simp [objGet, objSet]
  | cons hd tl ih =>
    obtain ⟨k', v'⟩ := hd
    by_cases h : k' = k <;> simp [objGet, objSet, h, ih]

theorem objGet_objSet_ne (k k' : String) (h : k' ≠ k) (v : α) (l : List (String × α)) :
    objGet k (objSet k' v l) = objGet k l := by
  induction l with
  | nil => simp [objGet, objSet, h]
  | cons hd tl ih =>
    obtain ⟨k'', v''⟩ := hd
    by_cases h2 : k'' = k'
    · subst h2; simp [objGet, objSet, h]
    · by_cases h3 : k'' = k <;> simp [objGet, objSet, h2, h3, ih, h.symm]

theorem objGet_objDelete_self (k : String) (l : List (String × α)) :
    objGet k (objDelete k l) = none := by
  induction l with
  | nil => simp [objGet, objDelete]
  | cons hd tl ih =>
    obtain ⟨k', v'⟩ := hd
    by_cases h : k' = k <;> simp [objGet, objDelete, h, ih]

theorem objGet_objDelete_ne (k k' : String) (h : k' ≠ k) (l : List (String × α)) :
    objGet k (objDelete k' l) = objGet k l := by
  induction l with
  | nil => simp [objDelete]
  | cons hd tl ih =>
    obtain ⟨k'', v''⟩ := hd
    by_cases h2 : k'' = k'
    · subst h2; simp [objGet, objDelete, h, ih]
    · by_cases h3 : k'' = k <;> simp [objGet, objDelete, h2, h3, ih, h.symm]

theorem objGet_eq_none_iff (k : String) (l : List (String × α)) :
    objGet k l = none ↔ k ∉ objKeys l := by
  induction l with
  | nil => simp [objGet, objKeys]
  | cons hd tl ih =>
    obtain ⟨k', v'⟩ := hd
    by_cases h : k' = k
    · subst h; simp [objGet, objKeys]
    · rw [objGet_cons, if_neg h, ih]
      simp only [objKeys, List.map_cons, List.mem_cons, not_or]
      exact ⟨fun hk => ⟨fun hc => h hc.symm, hk⟩, fun hp => hp.2⟩

theorem objGet_map (k : String) (f : String → α → β) (l : List (String × α)) :
    objGet k (l.map (fun p => (p.1, f p.1 p.2))) = (objGet k l).map (f k) := by
  induction l with
  | nil => simp [objGet]
  | cons hd tl ih =>
    obtain ⟨k', v'⟩ := hd
    by_cases h : k' = k <;> simp [objGet, h, ih]

theorem objGet_map_val (k : String) (f : α → β) (l : List (String × α)) :
    objGet k (l.map (fun p => (p.1, f p.2))) = (objGet k l).map f := by
  induction l with
  | nil => simp [objGet]
  | cons hd tl ih =>
    obtain ⟨k', v'⟩ := hd
    by_cases h : k' = k <;> simp [objGet, h, ih]

end ApiRegistry

namespace ApiRegistry

/-! ## Metadata Reconciler facts (towards C1 and C6) -/

theorem markEntry_added (ps : String) (small : Bool) (n : Nat) (now : String)
    (md : VersionEntry) : (markEntry ps small n now md).added = md.added := by
  unfold markEntry; split <;> rfl

theorem markEntry_run (ps : String) (small : Bool) (n : Nat) (now : String)
    (md : VersionEntry) :
    (markEntry ps small n now md).run =
      if filenameStartsWith md.filename ps && (!small || decide (n < 50)) then some now
      else md.run := by
  unfold markEntry; split <;> simp_all

theorem lookupEntry_markPhase (ps : String) (small : Bool) (now : String) (m : Registry)
    (pk sk vk : String) :
    lookupEntry (markPhase ps small now m) pk sk vk =
      (objGet pk m).bind fun p => (objGet sk p.apis).bind fun svc =>
        (objGet vk svc.vers).map fun md =>
          if vk ≠ "patch" then markEntry ps small (objKeys p.apis).length now md else md := by
  unfold lookupEntry markPhase
  rw [objGet_map_val]
  cases hP : objGet pk m with
  | none => rfl
  | some p =>
    simp only [Option.map_some', Option.some_bind]
    unfold markProv
    simp only []
    rw [objGet_map_val]
    cases hS : objGet sk p.apis with
    | none => rfl
    | some svc =>
      simp only [Option.map_some', Option.some_bind]
      unfold markSvc
      simp only []
      exact objGet_map vk
        (fun k md => if k ≠ "patch" then markEntry ps small (objKeys p.apis).length now md
          else md) svc.vers

theorem populateMetadata_nil (ps : String) (argv : Argv) (now : String)
    (rel : String → String) (m : Registry) :
    populateMetadata [] ps argv now rel m = markPhase ps argv.small now m := rfl

end ApiRegistry

namespace ApiRegistry

theorem applyParentPatch_apis (api : Api) (p : Provider) :
    (applyParentPatch api p).apis = p.apis := by
  unfold applyParentPatch
  cases api.parentPatch with
  | none => rfl
  | some pp => by_cases h : pp.length > 0 <;> simp [h]

theorem applyServicePatch_vers (api : Api) (svc : Service) :
    (applyServicePatch api svc).vers = svc.vers := by
  unfold applyServicePatch
  cases api.patch with
  | none => rfl
  | some sp => by_cases h : sp.length > 0 <;> simp [h]

theorem mergedEntryOf_added (now : String) (rel : String → String) (fn : String) (api : Api)
    (old : Option VersionEntry) :
    (mergedEntryOf now rel fn api old).added =
      match (old.getD {}).added with
      | some t => some t
      | none => some now := by
  unfold mergedEntryOf assignEntry
  cases hA : (old.getD {}).added <;> simp [hA]

theorem lookupEntry_ingest_self (now : String) (rel : String → String) (m : Registry)
    (fn : String) (api : Api) :
    lookupEntry (ingest now rel m fn api)
        (ingestKeys rel fn api).1 (ingestKeys rel fn api).2.1 (ingestKeys rel fn api).2.2 =
      some (mergedEntryOf now rel fn api
        (lookupEntry m (ingestKeys rel fn api).1 (ingestKeys rel fn api).2.1
          (ingestKeys rel fn api).2.2)) := by
  unfold lookupEntry ingest
  cases hP : objGet (ingestKeys rel fn api).1 m with
  | some p =>
    simp only [hP, Option.getD_some, Option.some_bind, objGet_objSet_self,
      applyServicePatch_vers, applyParentPatch_apis]
    cases hS : objGet (ingestKeys rel fn api).2.1 p.apis <;> simp [hS]
  | none =>
    simp only [hP, Option.none_bind, Option.getD_some, Option.some_bind,
      objGet_objSet_self, applyServicePatch_vers, applyParentPatch_apis]
    simp

theorem lookupEntry_ingest_other (now : String) (rel : String → String) (m : Registry)
    (fn : String) (api : Api) (pk sk vk : String)
    (h : ¬(pk = (ingestKeys rel fn api).1 ∧ sk = (ingestKeys rel fn api).2.1 ∧
        vk = (ingestKeys rel fn api).2.2)) :
    lookupEntry (ingest now rel m fn api) pk sk vk = lookupEntry m pk sk vk := by
  unfold lookupEntry ingest
  by_cases hp : pk = (ingestKeys rel fn api).1
  · subst hp
    cases hP : objGet (ingestKeys rel fn api).1 m with
    | some p =>
      by_cases hs : sk = (ingestKeys rel fn api).2.1
      · subst hs
        have hv : vk ≠ (ingestKeys rel fn api).2.2 := by
          intro hc; exact h ⟨rfl, rfl, hc⟩
        simp only [hP, Option.getD_some, Option.some_bind, objGet_objSet_self,
          objGet_objSet_ne vk (ingestKeys rel fn api).2.2 (fun hc => hv hc.symm),
          applyServicePatch_vers, applyParentPatch_apis]
        cases hS : objGet (ingestKeys rel fn api).2.1 p.apis <;> simp [hS]
      · simp only [hP, Option.getD_some, Option.some_bind, objGet_objSet_self,
          objGet_objSet_ne sk (ingestKeys rel fn api).2.1 (fun hc => hs hc.symm),
          applyParentPatch_apis]
    | none =>
      by_cases hs : sk = (ingestKeys rel fn api).2.1
      · subst hs
        have hv : vk ≠ (ingestKeys rel fn api).2.2 := by
          intro hc; exact h ⟨rfl, rfl, hc⟩
        simp only [hP, Option.none_bind, Option.getD_some, Option.some_bind,
          objGet_objSet_self,
          objGet_objSet_ne vk (ingestKeys rel fn api).2.2 (fun hc => hv hc.symm),
          applyServicePatch_vers, applyParentPatch_apis]
        simp
      · simp only [hP, Option.none_bind, Option.getD_some, Option.some_bind,
          objGet_objSet_self,
          objGet_objSet_ne sk (ingestKeys rel fn api).2.1 (fun hc => hs hc.symm),
          applyParentPatch_apis]
        simp
  · have hp2 : (ingestKeys rel fn api).1 ≠ pk := fun hc => hp hc.symm
    cases hP : objGet (ingestKeys rel fn api).1 m with
    | some p =>
      simp only [hP, objGet_objSet_ne pk (ingestKeys rel fn api).1 hp2]
    | none =>
      simp only [hP, objGet_objSet_ne pk (ingestKeys rel fn api).1 hp2]

end ApiRegistry

namespace ApiRegistry

theorem addedEvolves_trans (now : String) (a b c : Option String)
    (h1 : addedEvolves now a b) (h2 : addedEvolves now b c) : addedEvolves now a c := by
  rcases h1 with h1 | ⟨ha, hb⟩
  · rw [h1] at h2; exact h2
  · rcases h2 with h2 | ⟨hb2, _⟩
    · exact Or.inr ⟨ha, h2.trans hb⟩
    · rw [hb] at hb2; exact Option.noConfusion hb2

theorem ingest_addedEvolves (now : String) (rel : String → String) (m : Registry)
    (fn : String) (api : Api) (pk sk vk : String) (e : VersionEntry)
    (h : lookupEntry m pk sk vk = some e) :
    ∃ e2, lookupEntry (ingest now rel m fn api) pk sk vk = some e2 ∧
      addedEvolves now e.added e2.added := by
  by_cases ht : pk = (ingestKeys rel fn api).1 ∧ sk = (ingestKeys rel fn api).2.1 ∧
      vk = (ingestKeys rel fn api).2.2
  · obtain ⟨h1, h2, h3⟩ := ht
    subst h1; subst h2; subst h3
    refine ⟨_, lookupEntry_ingest_self now rel m fn api, ?_⟩
    rw [mergedEntryOf_added, h]
    cases hA : e.added with
    | some t => simp [addedEvolves, hA]
    | none => simp [addedEvolves, hA]
  · exact ⟨e, by rw [lookupEntry_ingest_other now rel m fn api pk sk vk ht]; exact h,
      Or.inl rfl⟩

theorem foldIngest_addedEvolves (now : String) (rel : String → String)
    (l : List (String × Api)) :
    ∀ (m : Registry) (pk sk vk : String) (e : VersionEntry),
      lookupEntry m pk sk vk = some e →
      ∃ e2, lookupEntry (l.foldl (fun m2 fa => ingest now rel m2 fa.1 fa.2) m) pk sk vk
          = some e2 ∧ addedEvolves now e.added e2.added := by
  induction l with
  | nil => exact fun m pk sk vk e h => ⟨e, h, Or.inl rfl⟩
  | cons hd tl ih =>
    intro m pk sk vk e h
    obtain ⟨e1, h1, hev1⟩ := ingest_addedEvolves now rel m hd.1 hd.2 pk sk vk e h
    obtain ⟨e2, h2, hev2⟩ := ih (ingest now rel m hd.1 hd.2) pk sk vk e1 h1
    exact ⟨e2, by simpa using h2, addedEvolves_trans now _ _ _ hev1 hev2⟩

theorem lookupEntry_markPhase_added (ps : String) (small : Bool) (now : String)
    (m : Registry) (pk sk vk : String) (e : VersionEntry)
    (h : lookupEntry m pk sk vk = some e) :
    ∃ e1, lookupEntry (markPhase ps small now m) pk sk vk = some e1 ∧
      e1.added = e.added := by
  rw [lookupEntry_markPhase]
  unfold lookupEntry at h
  cases hP : objGet pk m with
  | none => rw [hP] at h; exact absurd h (by simp)
  | some p =>
    rw [hP] at h; simp only [Option.some_bind] at h
    cases hS : objGet sk p.apis with
    | none => rw [hS] at h; exact absurd h (by simp)
    | some svc =>
      rw [hS] at h; simp only [Option.some_bind] at h
      by_cases hv : vk = "patch"
      · exact ⟨e, by subst hv; simp [hP, hS, h], rfl⟩
      · exact ⟨markEntry ps small (objKeys p.apis).length now e,
          by simp [hP, hS, h, hv], markEntry_added ps small _ now e⟩

theorem populateMetadata_addedEvolves (apis : ApiMap) (ps : String) (argv : Argv)
    (now : String) (rel : String → String) (m : Registry) (pk sk vk : String)
    (e : VersionEntry) (h : lookupEntry m pk sk vk = some e) :
    ∃ e2, lookupEntry (populateMetadata apis ps argv now rel m) pk sk vk = some e2 ∧
      addedEvolves now e.added e2.added := by
  unfold populateMetadata
  by_cases hl : apis.length = 0
  · simp only [hl, if_pos]
    obtain ⟨e1, h1, ha⟩ := lookupEntry_markPhase_added ps argv.small now m pk sk vk e h
    obtain ⟨e2, h2, hev⟩ := foldIngest_addedEvolves now rel apis _ pk sk vk e1 h1
    rw [ha] at hev
    exact ⟨e2, h2, hev⟩
  · simp only [hl, if_neg, if_false]
    exact foldIngest_addedEvolves now rel apis m pk sk vk e h

theorem runSeq_added (calls : List RunCall) :
    ∀ (m : Registry) (pk sk vk : String) (e : VersionEntry),
      lookupEntry m pk sk vk = some e →
      ∃ e2, lookupEntry (runSeq calls m) pk sk vk = some e2 ∧
        (e2.added = e.added ∨ (e.added = none ∧ ∃ c ∈ calls, e2.added = some c.now)) := by
  induction calls with
  | nil => exact fun m pk sk vk e h => ⟨e, h, Or.inl rfl⟩
  | cons c cs ih =>
    intro m pk sk vk e h
    obtain ⟨e1, h1, hev1⟩ :=
      populateMetadata_addedEvolves c.apis c.pathspec c.argv c.now c.rel m pk sk vk e h
    obtain ⟨e2, h2, hd⟩ := ih _ pk sk vk e1 h1
    refine ⟨e2, by simpa [runSeq] using h2, ?_⟩
    rcases hev1 with hev1 | ⟨hnone, hset⟩
    · rcases hd with hd | ⟨hnone1, c2, hc2, hcn⟩
      · exact Or.inl (hd.trans hev1)
      · exact Or.inr ⟨by rw [← hev1, hnone1], c2, List.mem_cons_of_mem c hc2, hcn⟩
    · rcases hd with hd | ⟨hnone1, _, _, _⟩
      · exact Or.inr ⟨hnone, c, List.mem_cons_self c cs, by rw [hd, hset]⟩
      · rw [hset] at hnone1; exact absurd hnone1 (by simp)

/-- **C1** — Added-once invariant: across any sequence of Metadata
Reconciler (`populateMetadata`) calls, a VersionEntry's `added` stamp is
set at most once: a pre-existing `added` value is never changed by a later
merge, and an absent `added` can only ever become the run token of one of
the calls (assigned only when the merged entry still has no `added`). -/
theorem populateMetadata_added_once (calls : List RunCall) (m : Registry)
    (pk sk vk : String) (e : VersionEntry)
    (h : lookupEntry m pk sk vk = some e) :
    ∃ e2, lookupEntry (runSeq calls m) pk sk vk = some e2 ∧
      (∀ t, e.added = some t → e2.added = some t) ∧
      (e.added = none → e2.added = none ∨ ∃ c ∈ calls, e2.added = some c.now) := by
  obtain ⟨e2, h2, hd⟩ := runSeq_added calls m pk sk vk e h
  refine ⟨e2, h2, ?_, ?_⟩
  · intro t ht
    rcases hd with hd | ⟨hnone, _⟩
    · rw [hd, ht]
    · rw [ht] at hnone; exact Option.noConfusion hnone
  · intro hnone
    rcases hd with hd | ⟨_, c, hc, hcn⟩
    · exact Or.inl (by rw [hd, hnone])
    · exact Or.inr ⟨c, hc, hcn⟩

/-- Witness for C1 at a concrete registry and a one-call sequence: the
pre-existing `added` stamp survives the reconcile. -/
theorem populateMetadata_added_once_witness :
    ∃ e2, lookupEntry
        (runSeq [{ apis := [], pathspec := "APIs", argv := {}, now := "2025-01-01T00:00:00Z",
                   rel := id }]
          [("example.com",
            { driver := "url",
              apis := [("", { vers := [("1.0.0",
                { added := some "2024-05-05T00:00:00Z",
                  filename := some "APIs/example.com/1.0.0/openapi.yaml" })] })] })])
        "example.com" "" "1.0.0" = some e2 ∧
      e2.added = some "2024-05-05T00:00:00Z" := by
  obtain ⟨e2, h2, h3, _⟩ := populateMetadata_added_once
    [{ apis := [], pathspec := "APIs", argv := {}, now := "2025-01-01T00:00:00Z", rel := id }]
    [("example.com",
      { driver := "url",
        apis := [("", { vers := [("1.0.0",
          { added := some "2024-05-05T00:00:00Z",
            filename := some "APIs/example.com/1.0.0/openapi.yaml" })] })] })]
    "example.com" "" "1.0.0"
    { added := some "2024-05-05T00:00:00Z",
      filename := some "APIs/example.com/1.0.0/openapi.yaml" }
    (by decide)
  exact ⟨e2, h2, h3 "2024-05-05T00:00:00Z" rfl⟩

end ApiRegistry

namespace ApiRegistry

/-- **C6** — Small-provider cap in the marking phase: when the discovery
scan found zero documents, `populateMetadata` sets `run` to the current
run token on every existing non-`patch` VersionEntry whose `filename`
starts with the pathspec — except that with the `small` run-option set,
entries of a provider with 50 or more services keep their prior `run`
value. -/
theorem populateMetadata_small_cap (pathspec : String) (argv : Argv) (now : String)
    (rel : String → String) (m : Registry) (pk sk vk : String) (p : Provider)
    (svc : Service) (e : VersionEntry)
    (hp : objGet pk m = some p) (hs : objGet sk p.apis = some svc)
    (hv : objGet vk svc.vers = some e) (hpatch : vk ≠ "patch") :
    ∃ e2, lookupEntry (populateMetadata [] pathspec argv now rel m) pk sk vk = some e2 ∧
      e2.run = if filenameStartsWith e.filename pathspec = true ∧
          (argv.small = true → (objKeys p.apis).length < 50) then some now else e.run := by
  rw [populateMetadata_nil, lookupEntry_markPhase]
  refine ⟨markEntry pathspec argv.small (objKeys p.apis).length now e, ?_, ?_⟩
  · simp [hp, hs, hv, hpatch]
  · rw [markEntry_run]
    by_cases hf : filenameStartsWith e.filename pathspec = true
    · by_cases hsm : argv.small = true
      · by_cases hn : (objKeys p.apis).length < 50 <;> simp [hf, hsm, hn]
      · have hsm2 : argv.small = false := by simpa using hsm
        simp [hf, hsm2]
    · have hf2 : filenameStartsWith e.filename pathspec = false := by simpa using hf
      simp [hf2]

/-- Witness for C6: with `small` set, a provider with 60 services is not
marked (the prior `run` value survives) while a provider with one service
is marked with the current run token. -/
theorem populateMetadata_small_cap_witness :
    (∃ e2, lookupEntry
        (populateMetadata [] "APIs" { small := true } "2025-01-01" id
          [("big.com",
            { driver := "url",
              apis := List.replicate 60 ("s",
                ({ vers := [("1.0",
                  { filename := some "APIs/big.com/s/1.0/openapi.yaml",
                    run := some "2024-01-01" })] } : Service)) })])
        "big.com" "s" "1.0" = some e2 ∧ e2.run = some "2024-01-01") ∧
    (∃ e2, lookupEntry
        (populateMetadata [] "APIs" { small := true } "2025-01-01" id
          [("small.com",
            { driver := "url",
              apis := [("s",
                ({ vers := [("1.0",
                  { filename := some "APIs/small.com/s/1.0/openapi.yaml",
                    run := some "2024-01-01" })] } : Service))] })])
        "small.com" "s" "1.0" = some e2 ∧ e2.run = some "2025-01-01") := by
  constructor
  · obtain ⟨e2, h2, hr⟩ := populateMetadata_small_cap "APIs" { small := true } "2025-01-01"
      id
      [("big.com",
        { driver := "url",
          apis := List.replicate 60 ("s",
            ({ vers := [("1.0",
              { filename := some "APIs/big.com/s/1.0/openapi.yaml",
                run := some "2024-01-01" })] } : Service)) })]
      "big.com" "s" "1.0"
      { driver := "url",
        apis := List.replicate 60 ("s",
          ({ vers := [("1.0",
            { filename := some "APIs/big.com/s/1.0/openapi.yaml",
              run := some "2024-01-01" })] } : Service)) }
      { vers := [("1.0",
        { filename := some "APIs/big.com/s/1.0/openapi.yaml",
          run := some "2024-01-01" })] }
      { filename := some "APIs/big.com/s/1.0/openapi.yaml", run := some "2024-01-01" }
      (by decide) (by decide) (by decide) (by decide)
    rw [if_neg (by decide)] at hr
    exact ⟨e2, h2, hr⟩
  · obtain ⟨e2, h2, hr⟩ := populateMetadata_small_cap "APIs" { small := true } "2025-01-01"
      id
      [("small.com",
        { driver := "url",
          apis := [("s",
            ({ vers := [("1.0",
              { filename := some "APIs/small.com/s/1.0/openapi.yaml",
                run := some "2024-01-01" })] } : Service))] })]
      "small.com" "s" "1.0"
      { driver := "url",
        apis := [("s",
          ({ vers := [("1.0",
            { filename := some "APIs/small.com/s/1.0/openapi.yaml",
              run := some "2024-01-01" })] } : Service))] }
      { vers := [("1.0",
        { filename := some "APIs/small.com/s/1.0/openapi.yaml",
          run := some "2024-01-01" })] }
      { filename := some "APIs/small.com/s/1.0/openapi.yaml", run := some "2024-01-01" }
      (by decide) (by decide) (by decide) (by decide)
    rw [if_pos (by decide)] at hr
    exact ⟨e2, h2, hr⟩

end ApiRegistry

namespace ApiRegistry

/-! ## Candidate Selector facts (towards C2 and C5) -/

theorem selectedB_returnAll (drv : Option String) (pdriver : String) (md : VersionEntry)
    (now : String) : selectedB true drv pdriver md now = true := by
  simp [selectedB]

theorem candTriple_candidateOf (apis : ApiMap) (pname : String) (p : Provider)
    (sname : String) (svc : Service) (v : String) (md : VersionEntry) :
    candTriple (candidateOf apis pname p sname svc v md) = (pname, sname, v) := rfl

theorem scanVers_returnAll_triples (drv : Option String) (now : String) (apis : ApiMap)
    (pname : String) (p : Provider) (sname : String) (svc : Service) :
    ∀ (l : List (String × VersionEntry)) (acc : List Candidate) (drivers : Drivers),
      ((scanVers true drv now apis pname p sname svc l (acc, drivers)).1).map candTriple =
        acc.map candTriple ++
          (l.filter (fun ve => ve.1 ≠ "patch")).map (fun ve => (pname, sname, ve.1)) := by
  intro l
  induction l with
  | nil => intro acc drivers; simp [scanVers]
  | cons hd tl ih =>
    intro acc drivers
    obtain ⟨v, md⟩ := hd
    by_cases hv : v = "patch"
    · simp [scanVers, hv, ih]
    · simp [scanVers, hv, selectedB_returnAll, ih, candTriple_candidateOf]

theorem scanSvcs_returnAll_triples (drv : Option String) (now : String) (apis : ApiMap)
    (pname : String) (p : Provider) :
    ∀ (l : List (String × Service)) (st : List Candidate × Drivers),
      ((scanSvcs true drv now apis pname p l st).1).map candTriple =
        st.1.map candTriple ++
          l.flatMap (fun sv => ((sv.2.vers.filter (fun ve => ve.1 ≠ "patch")).map
            (fun ve => (pname, sv.1, ve.1)))) := by
  intro l
  induction l with
  | nil => intro st; simp [scanSvcs]
  | cons hd tl ih =>
    intro st
    obtain ⟨sname, svc⟩ := hd
    rw [scanSvcs, ih]
    obtain ⟨acc, drivers⟩ := st
    rw [scanVers_returnAll_triples]
    simp

theorem scanProvs_returnAll_triples (drv : Option String) (now : String) (apis : ApiMap) :
    ∀ (ms : Registry) (st : List Candidate × Drivers),
      ((scanProvs true drv now apis ms st).1).map candTriple =
        st.1.map candTriple ++ registryTriples ms := by
  intro ms
  induction ms with
  | nil => intro st; simp [scanProvs, registryTriples]
  | cons hd tl ih =>
    intro st
    obtain ⟨pname, p⟩ := hd
    rw [scanProvs, ih, scanSvcs_returnAll_triples]
    simp [registryTriples]

/-- **C2** — Select-all correctness: when the driver filter is `"none"`,
or the pathspec is the system default and the command is not `update`,
`getCandidates` returns one Candidate for every (provider, service,
version) triple of the Registry whose version key is not the reserved
`patch` key — regardless of any `run` marker state. -/
theorem getCandidates_select_all (command pathspec : String) (argv : Argv) (now : String)
    (apis : ApiMap) (metadata : Registry) (drivers : Drivers)
    (h : argv.driver = some "none" ∨ (pathspec = defaultPathSpec ∧ command ≠ "update")) :
    ((getCandidates command pathspec argv now apis metadata drivers).1).map candTriple =
      registryTriples metadata := by
  have hra : gcReturnAll command pathspec argv = true := by
    rcases h with h | ⟨h1, h2⟩
    · simp [gcReturnAll, h]
    · simp [gcReturnAll, h1, h2]
  unfold getCandidates
  rw [hra, scanProvs_returnAll_triples]
  simp

/-- Witness for C2: a registry with two real versions, a `patch` key and a
stale `run` marker yields exactly the two non-`patch` triples. -/
theorem getCandidates_select_all_witness :
    ((getCandidates "validate" "metadata" { driver := some "none" } "2025-01-01" []
        [("example.com",
          { driver := "url",
            apis := [("svc",
              ({ vers := [("1.0", { run := some "2020-01-01" }),
                          ("patch", {}),
                          ("2.0", {})] } : Service))] })]
        []).1).map candTriple =
      [("example.com", "svc", "1.0"), ("example.com", "svc", "2.0")] := by
  rw [getCandidates_select_all "validate" "metadata" { driver := some "none" } "2025-01-01"
    [] _ [] (Or.inl rfl)]
  decide

end ApiRegistry

namespace ApiRegistry

theorem objSet_objSet_self (k : String) (a b : α) (l : List (String × α)) :
    objSet k b (objSet k a l) = objSet k b l := by
  induction l with
  | nil => simp [objSet]
  | cons hd tl ih =>
    obtain ⟨k', v'⟩ := hd
    by_cases h : k' = k <;> simp [objSet, h, ih]

theorem objGet_mem (k : String) (v : α) (l : List (String × α))
    (h : objGet k l = some v) : (k, v) ∈ l := by
  induction l with
  | nil => simp [objGet] at h
  | cons hd tl ih =>
    obtain ⟨k', v'⟩ := hd
    by_cases h2 : k' = k
    · subst h2
      simp [objGet] at h
      simp [h]
    · simp [objGet, h2] at h
      exact List.mem_cons_of_mem _ (ih h)

theorem driversAdd_eq_some (d pn : String) (p : Provider) (D : Drivers)
    (inner : List (String × Provider)) (hD : objGet d D = some inner) :
    driversAdd d pn p D = objSet d (objSet pn p inner) D := by
  unfold driversAdd; rw [hD]

theorem driversAdd_eq_none (d pn : String) (p : Provider) (D : Drivers)
    (hD : objGet d D = none) :
    driversAdd d pn p D = objSet d [(pn, p)] D := by
  unfold driversAdd; rw [hD]

theorem driversAdd_idem (d pn : String) (p : Provider) (D : Drivers) :
    driversAdd d pn p (driversAdd d pn p D) = driversAdd d pn p D := by
  cases hD : objGet d D with
  | some inner =>
    rw [driversAdd_eq_some d pn p D inner hD,
      driversAdd_eq_some d pn p _ (objSet pn p inner) (objGet_objSet_self d _ D),
      objSet_objSet_self, objSet_objSet_self]
  | none =>
    rw [driversAdd_eq_none d pn p D hD,
      driversAdd_eq_some d pn p _ [(pn, p)] (objGet_objSet_self d _ D),
      objSet_objSet_self]
    have h1 : objSet pn p [(pn, p)] = [(pn, p)] := by simp [objSet]
    rw [h1]

theorem inDrivers_nil (pname : String) : inDrivers pname ([] : Drivers) = 0 := rfl

theorem inDrivers_cons (pname d : String) (inner : List (String × Provider)) (D : Drivers) :
    inDrivers pname ((d, inner) :: D) =
      (if (objGet pname inner).isSome then 1 else 0) + inDrivers pname D := by
  simp [inDrivers]

theorem inDrivers_objSet_present (pname d : String) (X inner : List (String × Provider))
    (D : Drivers) (hd : objGet d D = some inner) :
    inDrivers pname (objSet d X D) + (if (objGet pname inner).isSome then 1 else 0) =
      inDrivers pname D + (if (objGet pname X).isSome then 1 else 0) := by
  induction D with
  | nil => simp [objGet] at hd
  | cons hd2 tl ih =>
    obtain ⟨d', inner'⟩ := hd2
    by_cases h : d' = d
    · subst h
      simp only [objGet_cons, if_pos rfl] at hd
      obtain rfl : inner' = inner := by injection hd
      rw [objSet_cons, if_pos rfl, inDrivers_cons, inDrivers_cons]
      omega
    · simp only [objGet_cons, if_neg h] at hd
      rw [objSet_cons, if_neg h, inDrivers_cons, inDrivers_cons]
      have := ih hd
      omega

theorem inDrivers_objSet_new (pname d : String) (X : List (String × Provider))
    (D : Drivers) (hd : objGet d D = none) :
    inDrivers pname (objSet d X D) =
      inDrivers pname D + (if (objGet pname X).isSome then 1 else 0) := by
  induction D with
  | nil => rw [objSet_nil, inDrivers_cons, inDrivers_nil]; omega
  | cons hd2 tl ih =>
    obtain ⟨d', inner'⟩ := hd2
    by_cases h : d' = d
    · subst h; simp [objGet] at hd
    · simp only [objGet_cons, if_neg h] at hd
      rw [objSet_cons, if_neg h, inDrivers_cons, inDrivers_cons, ih hd]
      omega

theorem inDrivers_driversAdd_ne (pname d qn : String) (q : Provider) (D : Drivers)
    (h : qn ≠ pname) :
    inDrivers pname (driversAdd d qn q D) = inDrivers pname D := by
  cases hD : objGet d D with
  | some inner =>
    rw [driversAdd_eq_some d qn q D inner hD]
    have := inDrivers_objSet_present pname d (objSet qn q inner) inner D hD
    rw [objGet_objSet_ne pname qn h] at this
    omega
  | none =>
    rw [driversAdd_eq_none d qn q D hD, inDrivers_objSet_new pname d _ D hD]
    simp [objGet, h]

theorem bind_driversAdd_ne (pname d qn : String) (q : Provider) (D : Drivers)
    (h : qn ≠ pname) (dd : String) :
    (objGet dd (driversAdd d qn q D)).bind (objGet pname) =
      (objGet dd D).bind (objGet pname) := by
  by_cases hdd : dd = d
  · subst hdd
    cases hD : objGet dd D with
    | some inner =>
      rw [driversAdd_eq_some dd qn q D inner hD, objGet_objSet_self]
      simp [hD, objGet_objSet_ne pname qn h]
    | none =>
      rw [driversAdd_eq_none dd qn q D hD, objGet_objSet_self]
      simp [hD, objGet, h]
  · have h2 : d ≠ dd := fun hc => hdd hc.symm
    cases hD : objGet d D with
    | some inner =>
      rw [driversAdd_eq_some d qn q D inner hD, objGet_objSet_ne dd d h2]
    | none =>
      rw [driversAdd_eq_none d qn q D hD, objGet_objSet_ne dd d h2]

theorem bind_driversAdd_self (pname d : String) (p : Provider) (D : Drivers) :
    (objGet d (driversAdd d pname p D)).bind (objGet pname) = some p := by
  cases hD : objGet d D with
  | some inner =>
    rw [driversAdd_eq_some d pname p D inner hD, objGet_objSet_self]
    simp [objGet_objSet_self]
  | none =>
    rw [driversAdd_eq_none d pname p D hD, objGet_objSet_self]
    simp [objGet]

theorem inDrivers_eq_zero (pname : String) (D : Drivers) (h : inDrivers pname D = 0) :
    ∀ di ∈ D, objGet pname di.2 = none := by
  induction D with
  | nil => simp
  | cons hd tl ih =>
    obtain ⟨d, inner⟩ := hd
    rw [inDrivers_cons] at h
    intro di hdi
    rcases List.mem_cons.mp hdi with hdi | hdi
    · subst hdi
      by_cases hs : (objGet pname inner).isSome
      · simp [hs] at h
      · exact Option.eq_none_iff_forall_not_mem.mpr
          (by simpa [Option.isSome_iff_exists] using hs)
    · exact ih (by omega) di hdi

theorem inDrivers_driversAdd_self (pname d : String) (p : Provider) (D : Drivers)
    (h0 : inDrivers pname D = 0) :
    inDrivers pname (driversAdd d pname p D) = 1 := by
  cases hD : objGet d D with
  | some inner =>
    have hinner : objGet pname inner = none :=
      inDrivers_eq_zero pname D h0 (d, inner) (objGet_mem d inner D hD)
    have := inDrivers_objSet_present pname d (objSet pname p inner) inner D hD
    rw [hinner, objGet_objSet_self] at this
    simp at this
    rw [driversAdd_eq_some d pname p D inner hD]
    omega
  | none =>
    rw [driversAdd_eq_none d pname p D hD, inDrivers_objSet_new pname d _ D hD, h0]
    simp [objGet]

end ApiRegistry

namespace ApiRegistry

theorem scanVers_drivers (ra : Bool) (drv : Option String) (now : String) (apis : ApiMap)
    (pname : String) (p : Provider) (sname : String) (svc : Service) :
    ∀ (l : List (String × VersionEntry)) (acc : List Candidate) (D : Drivers),
      (scanVers ra drv now apis pname p sname svc l (acc, D)).2 =
        if l.any (fun ve => decide (ve.1 ≠ "patch") && selectedB ra drv p.driver ve.2 now)
        then driversAdd p.driver pname p D else D := by
  intro l
  induction l with
  | nil => intro acc D; simp [scanVers]
  | cons hd tl ih =>
    intro acc D
    obtain ⟨v, md⟩ := hd
    by_cases hc : v ≠ "patch" ∧ selectedB ra drv p.driver md now = true
    · have hany : (decide (v ≠ "patch") && selectedB ra drv p.driver md now) = true := by
        simp [hc.1, hc.2]
      rw [scanVers, if_pos hc, ih, List.any_cons, hany]
      simp only [Bool.true_or, if_true]
      by_cases ht : tl.any (fun ve =>
          decide (ve.1 ≠ "patch") && selectedB ra drv p.driver ve.2 now) = true
      · rw [if_pos ht, driversAdd_idem]
      · rw [if_neg ht]
    · have hany : (decide (v ≠ "patch") && selectedB ra drv p.driver md now) = false := by
        by_cases hv : v = "patch"
        · simp [hv]
        · have hsel : selectedB ra drv p.driver md now = false := by
            cases hb : selectedB ra drv p.driver md now
            · rfl
            · exact absurd ⟨hv, hb⟩ hc
          simp [hsel]
      rw [scanVers, if_neg hc, ih, List.any_cons, hany]
      simp only [Bool.false_or]

theorem scanSvcs_drivers (ra : Bool) (drv : Option String) (now : String) (apis : ApiMap)
    (pname : String) (p : Provider) :
    ∀ (l : List (String × Service)) (st : List Candidate × Drivers),
      (scanSvcs ra drv now apis pname p l st).2 =
        if l.any (fun sv => sv.2.vers.any (fun ve =>
            decide (ve.1 ≠ "patch") && selectedB ra drv p.driver ve.2 now))
        then driversAdd p.driver pname p st.2 else st.2 := by
  intro l
  induction l with
  | nil => intro st; simp [scanSvcs]
  | cons hd tl ih =>
    intro st
    obtain ⟨sname, svc⟩ := hd
    rw [scanSvcs, ih]
    obtain ⟨acc, D⟩ := st
    rw [scanVers_drivers ra drv now apis pname p sname svc svc.vers acc D, List.any_cons]
    by_cases hsv : svc.vers.any (fun ve =>
        decide (ve.1 ≠ "patch") && selectedB ra drv p.driver ve.2 now) = true
    · rw [hsv]
      simp only [Bool.true_or, if_true, if_pos rfl]
      by_cases ht : tl.any (fun sv => sv.2.vers.any (fun ve =>
          decide (ve.1 ≠ "patch") && selectedB ra drv p.driver ve.2 now)) = true
      · rw [if_pos ht, driversAdd_idem]
      · rw [if_neg ht]
    · have hsv2 : svc.vers.any (fun ve =>
          decide (ve.1 ≠ "patch") && selectedB ra drv p.driver ve.2 now) = false := by
        cases hb : svc.vers.any (fun ve =>
            decide (ve.1 ≠ "patch") && selectedB ra drv p.driver ve.2 now)
        · rfl
        · exact absurd hb hsv
      rw [hsv2]
      simp
      rw [Bool.false_or]

theorem scanProvs_preserve (ra : Bool) (drv : Option String) (now : String) (apis : ApiMap)
    (pname : String) :
    ∀ (ms : Registry) (st : List Candidate × Drivers), pname ∉ objKeys ms →
      inDrivers pname (scanProvs ra drv now apis ms st).2 = inDrivers pname st.2 ∧
      ∀ dd, (objGet dd (scanProvs ra drv now apis ms st).2).bind (objGet pname) =
        (objGet dd st.2).bind (objGet pname) := by
  intro ms
  induction ms with
  | nil => intro st _; exact ⟨rfl, fun _ => rfl⟩
  | cons hd tl ih =>
    intro st h
    obtain ⟨qn, q⟩ := hd
    simp only [objKeys, List.map_cons, List.mem_cons, not_or] at h
    have hqn : qn ≠ pname := fun hc => h.1 hc.symm
    have htl : pname ∉ objKeys tl := h.2
    rw [scanProvs]
    obtain ⟨h1, h2⟩ := ih (scanSvcs ra drv now apis qn q q.apis st) htl
    refine ⟨?_, ?_⟩
    · rw [h1, scanSvcs_drivers]
      split
      · exact inDrivers_driversAdd_ne pname q.driver qn q st.2 hqn
      · rfl
    · intro dd
      rw [h2 dd, scanSvcs_drivers]
      split
      · exact bind_driversAdd_ne pname q.driver qn q st.2 hqn dd
      · rfl

theorem scanProvs_grouping (ra : Bool) (drv : Option String) (now : String)
    (apis : ApiMap) :
    ∀ (ms : Registry) (st : List Candidate × Drivers) (pname : String) (p : Provider),
      objGet pname ms = some p → (objKeys ms).Nodup → inDrivers pname st.2 = 0 →
      ((providerHasSelected ra drv now p = true →
          (objGet p.driver (scanProvs ra drv now apis ms st).2).bind (objGet pname) =
            some p ∧
          inDrivers pname (scanProvs ra drv now apis ms st).2 = 1) ∧
        (providerHasSelected ra drv now p = false →
          inDrivers pname (scanProvs ra drv now apis ms st).2 = 0)) := by
  intro ms
  induction ms with
  | nil => intro st pname p hmem; simp [objGet] at hmem
  | cons hd tl ih =>
    intro st pname p hmem hnd h0
    obtain ⟨qn, q⟩ := hd
    simp only [objKeys, List.map_cons, List.nodup_cons] at hnd
    by_cases hq : qn = pname
    · subst hq
      simp only [objGet_cons, if_pos rfl] at hmem
      have hpq : p = q := by
        injection hmem with h2
        exact h2.symm
      subst hpq
      have htl : qn ∉ objKeys tl := hnd.1
      rw [scanProvs]
      obtain ⟨hpres1, hpres2⟩ :=
        scanProvs_preserve ra drv now apis qn tl (scanSvcs ra drv now apis qn p p.apis st) htl
      have hph : (p.apis.any fun sv => sv.2.vers.any fun ve =>
          decide (ve.1 ≠ "patch") && selectedB ra drv p.driver ve.2 now) =
          providerHasSelected ra drv now p := rfl
      constructor
      · intro hsel
        have hst : (scanSvcs ra drv now apis qn p p.apis st).2 =
            driversAdd p.driver qn p st.2 := by
          rw [scanSvcs_drivers, hph, hsel]
          simp
        constructor
        · rw [hpres2 p.driver, hst, bind_driversAdd_self]
        · rw [hpres1, hst, inDrivers_driversAdd_self qn p.driver p st.2 h0]
      · intro hsel
        have hst : (scanSvcs ra drv now apis qn p p.apis st).2 = st.2 := by
          rw [scanSvcs_drivers, hph, hsel]
          simp
        rw [hpres1, hst, h0]
    · simp only [objGet_cons, if_neg hq] at hmem
      have hqn : qn ≠ pname := hq
      rw [scanProvs]
      have h0' : inDrivers pname (scanSvcs ra drv now apis qn q q.apis st).2 = 0 := by
        rw [scanSvcs_drivers]
        split
        · rw [inDrivers_driversAdd_ne pname q.driver qn q st.2 hqn, h0]
        · exact h0
      exact ih (scanSvcs ra drv now apis qn q q.apis st) pname p hmem hnd.2 h0'

end ApiRegistry

namespace ApiRegistry

/-- **C5** — Driver grouping exactly-once: after `getCandidates` runs
(with the freshly empty driver-grouping map), a provider with at least one
selected version appears in the grouping map under its configured driver
exactly once, mapped to its Provider record — no matter how many of its
versions were selected — and a provider with zero selected versions is
not added to the grouping map at all. -/
theorem getCandidates_driver_grouping (command pathspec : String) (argv : Argv)
    (now : String) (apis : ApiMap) (metadata : Registry) (pname : String) (p : Provider)
    (hmem : objGet pname metadata = some p) (hnd : (objKeys metadata).Nodup) :
    (providerHasSelected (gcReturnAll command pathspec argv)
        (gcDriver command pathspec argv) now p = true →
      (objGet p.driver (getCandidates command pathspec argv now apis metadata []).2).bind
          (objGet pname) = some p ∧
      inDrivers pname (getCandidates command pathspec argv now apis metadata []).2 = 1) ∧
    (providerHasSelected (gcReturnAll command pathspec argv)
        (gcDriver command pathspec argv) now p = false →
      inDrivers pname (getCandidates command pathspec argv now apis metadata []).2 = 0) := by
  unfold getCandidates
  exact scanProvs_grouping (gcReturnAll command pathspec argv)
    (gcDriver command pathspec argv) now apis metadata ([], []) pname p hmem hnd rfl

/-- Witness for C5: with the select-all driver filter, a provider with two
selected versions is grouped under its driver exactly once and maps to its
record, while a provider whose only version key is `patch` (zero selected
versions) never enters the grouping map. -/
theorem getCandidates_driver_grouping_witness :
    ((objGet "url" (getCandidates "validate" "metadata" { driver := some "none" }
          "2025-01-01" []
          [("a.com",
            { driver := "url",
              apis := [("svc", ({ vers := [("1.0", {}), ("2.0", {})] } : Service))] }),
           ("empty.com",
            { driver := "url",
              apis := [("svc", ({ vers := [("patch", {})] } : Service))] })]
          []).2).bind (objGet "a.com") =
        some { driver := "url",
               apis := [("svc", ({ vers := [("1.0", {}), ("2.0", {})] } : Service))] } ∧
      inDrivers "a.com" (getCandidates "validate" "metadata" { driver := some "none" }
          "2025-01-01" []
          [("a.com",
            { driver := "url",
              apis := [("svc", ({ vers := [("1.0", {}), ("2.0", {})] } : Service))] }),
           ("empty.com",
            { driver := "url",
              apis := [("svc", ({ vers := [("patch", {})] } : Service))] })]
          []).2 = 1) ∧
    inDrivers "empty.com" (getCandidates "validate" "metadata" { driver := some "none" }
          "2025-01-01" []
          [("a.com",
            { driver := "url",
              apis := [("svc", ({ vers := [("1.0", {}), ("2.0", {})] } : Service))] }),
           ("empty.com",
            { driver := "url",
              apis := [("svc", ({ vers := [("patch", {})] } : Service))] })]
          []).2 = 0 := by
  refine ⟨?_, ?_⟩
  · exact (getCandidates_driver_grouping "validate" "metadata" { driver := some "none" }
      "2025-01-01" []
      [("a.com",
        { driver := "url",
          apis := [("svc", ({ vers := [("1.0", {}), ("2.0", {})] } : Service))] }),
       ("empty.com",
        { driver := "url",
          apis := [("svc", ({ vers := [("patch", {})] } : Service))] })]
      "a.com"
      { driver := "url",
        apis := [("svc", ({ vers := [("1.0", {}), ("2.0", {})] } : Service))] }
      (by decide) (by decide)).1 (by decide)
  · exact (getCandidates_driver_grouping "validate" "metadata" { driver := some "none" }
      "2025-01-01" []
      [("a.com",
        { driver := "url",
          apis := [("svc", ({ vers := [("1.0", {}), ("2.0", {})] } : Service))] }),
       ("empty.com",
        { driver := "url",
          apis := [("svc", ({ vers := [("patch", {})] } : Service))] })]
      "empty.com"
      { driver := "url",
        apis := [("svc", ({ vers := [("patch", {})] } : Service))] }
      (by decide) (by decide)).2 (by decide)

end ApiRegistry

namespace ApiRegistry

/-! ## Lead Reconciler facts (towards C3) -/

theorem trimStep_eq (rel : String → String) (c : Candidate) (leads : Leads) :
    trimStep rel c leads =
      (applyLead rel c (objGet (urlKey c) leads),
       if (objGet (urlKey c) leads).isSome then objDelete (urlKey c) leads else leads) := by
  unfold trimStep applyLead urlKey
  cases h : objGet (keyOf c.md.source.url) leads <;> simp [h]

theorem objDelete_eq_filter (k : String) (l : List (String × α)) :
    objDelete k l = l.filter (fun p => decide (p.1 ≠ k)) := by
  induction l with
  | nil => rfl
  | cons hd tl ih =>
    obtain ⟨k', v'⟩ := hd
    by_cases h : k' = k <;> simp [objDelete, h, ih]

theorem mem_keys_of_mem (kv : String × α) (l : List (String × α)) (h : kv ∈ l) :
    kv.1 ∈ objKeys l := by
  simp only [objKeys, List.mem_map]
  exact ⟨kv, h, rfl⟩

theorem trimLeadsGo_spec (rel : String → String) :
    ∀ (cands : List Candidate) (leads : Leads), (cands.map urlKey).Nodup →
      trimLeadsGo rel cands leads =
        (cands.map (fun c => applyLead rel c (objGet (urlKey c) leads)),
         leads.filter (fun kv => decide (kv.1 ∉ cands.map urlKey))) := by
  intro cands
  induction cands with
  | nil =>
    intro leads _
    simp [trimLeadsGo]
  | cons c cs ih =>
    intro leads hnd
    simp only [List.map_cons, List.nodup_cons] at hnd
    rw [trimLeadsGo, trimStep_eq]
    cases hu : objGet (urlKey c) leads with
    | none =>
      simp only [Option.isSome_none, Bool.false_eq_true, if_neg, if_false]
      rw [ih leads hnd.2]
      have hnotin : urlKey c ∉ objKeys leads := (objGet_eq_none_iff _ _).mp hu
      refine Prod.ext ?_ ?_
      · simp [hu]
      · simp only []
        apply List.filter_congr
        intro kv hkv
        have hne : kv.1 ≠ urlKey c := by
          intro hc
          exact hnotin (hc ▸ mem_keys_of_mem kv leads hkv)
        simp [List.mem_cons, hne]
    | some lead =>
      simp only [Option.isSome_some, if_pos, if_true]
      rw [ih (objDelete (urlKey c) leads) hnd.2]
      refine Prod.ext ?_ ?_
      · simp only [List.map_cons, hu]
        refine congrArg (applyLead rel c (some lead) :: ·) ?_
        apply List.map_congr_left
        intro c2 hc2
        have hne : urlKey c ≠ urlKey c2 := by
          intro hc
          exact hnd.1 (hc ▸ List.mem_map_of_mem urlKey hc2)
        rw [objGet_objDelete_ne (urlKey c2) (urlKey c) hne]
      · simp only [objDelete_eq_filter, List.filter_filter]
        apply List.filter_congr
        intro kv _
        by_cases h1 : kv.1 = urlKey c <;> by_cases h2 : kv.1 ∈ cs.map urlKey <;>
          simp [h1, h2, List.mem_cons]

theorem applyLead_spec (rel : String → String) (c : Candidate) (lead : Lead) :
    (∀ f, lead.file = some f → f ≠ "" →
        (applyLead rel c (some lead)).md.cached = some (rel f)) ∧
    (lead.file = none ∨ lead.file = some "" →
        (applyLead rel c (some lead)).md.cached = c.md.cached) ∧
    (∀ b, lead.preferred = some (JsPrim.jsBool b) →
        (applyLead rel c (some lead)).md.preferred = some (JsPrim.jsBool b)) ∧
    ((∀ b, lead.preferred ≠ some (JsPrim.jsBool b)) →
        (applyLead rel c (some lead)).md.preferred = c.md.preferred) := by
  refine ⟨?_, ?_, ?_, ?_⟩
  · intro f hf hfe
    cases hp : lead.preferred with
    | none => simp [applyLead, hf, hfe, hp]
    | some pr => cases pr <;> simp [applyLead, hf, hfe, hp]
  · intro hor
    rcases hor with hf | hf
    · cases hp : lead.preferred with
      | none => simp [applyLead, hf, hp]
      | some pr => cases pr <;> simp [applyLead, hf, hp]
    · cases hp : lead.preferred with
      | none => simp [applyLead, hf, hp]
      | some pr => cases pr <;> simp [applyLead, hf, hp]
  · intro b hp
    cases hf : lead.file with
    | none => simp [applyLead, hf, hp]
    | some f => by_cases he : f = "" <;> simp [applyLead, hf, hp, he]
  · intro hp
    have hp2 : ∀ b, lead.preferred ≠ some (JsPrim.jsBool b) := hp
    cases hpv : lead.preferred with
    | none =>
      cases hf : lead.file with
      | none => simp [applyLead, hf, hpv]
      | some f => by_cases he : f = "" <;> simp [applyLead, hf, hpv, he]
    | some pr =>
      cases pr with
      | jsBool b => exact absurd hpv (hp2 b)
      | jsStr s =>
        cases hf : lead.file with
        | none => simp [applyLead, hf, hpv]
        | some f => by_cases he : f = "" <;> simp [applyLead, hf, hpv, he]
      | jsNum n =>
        cases hf : lead.file with
        | none => simp [applyLead, hf, hpv]
        | some f => by_cases he : f = "" <;> simp [applyLead, hf, hpv, he]

end ApiRegistry

namespace ApiRegistry

theorem objGet_filter_notin (k : String) (urls : List String) (l : List (String × α))
    (hk : k ∈ urls) :
    objGet k (l.filter (fun kv => decide (kv.1 ∉ urls))) = none := by
  rw [objGet_eq_none_iff]
  intro hmem
  simp only [objKeys, List.mem_map] at hmem
  obtain ⟨kv, hkv, rfl⟩ := hmem
  rw [List.mem_filter] at hkv
  have hnot : kv.1 ∉ urls := by simpa using hkv.2
  exact hnot hk

/-- **C3** (amended) — Lead reconciliation, for candidate lists whose
source urls are pairwise distinct (with duplicates only the first bearer
of a url absorbs the lead; see the separate counterexample): `trimLeads`
(a) removes from the leads map the key of every candidate whose
`md.source.url` was a key there, (b) sets that candidate's `md.cached` to
the lead's `file` made relative to the working directory when the lead
had a non-empty `file` (and leaves it alone otherwise), (c) sets
`md.preferred` to the lead's `preferred` exactly when that value is
strictly a boolean, and (d) returns exactly the leads whose url matched no
candidate. -/
theorem trimLeads_spec (rel : String → String) (cands : List Candidate) (leads : Leads)
    (hnd : (cands.map urlKey).Nodup) :
    (∀ c ∈ cands, ∀ lead, objGet (urlKey c) leads = some lead →
        objGet (urlKey c) (trimLeads rel cands leads).2 = none) ∧
    List.Forall₂ (fun c c2 =>
        (objGet (urlKey c) leads = none → c2 = c) ∧
        ∀ lead, objGet (urlKey c) leads = some lead →
          ((∀ f, lead.file = some f → f ≠ "" → c2.md.cached = some (rel f)) ∧
           (lead.file = none ∨ lead.file = some "" → c2.md.cached = c.md.cached) ∧
           (∀ b, lead.preferred = some (JsPrim.jsBool b) →
              c2.md.preferred = some (JsPrim.jsBool b)) ∧
           ((∀ b, lead.preferred ≠ some (JsPrim.jsBool b)) →
              c2.md.preferred = c.md.preferred)))
      cands (trimLeads rel cands leads).1 ∧
    (trimLeads rel cands leads).2 =
      leads.filter (fun kv => decide (kv.1 ∉ cands.map urlKey)) := by
  by_cases hl : 0 < leads.length
  · have hgo : trimLeads rel cands leads = trimLeadsGo rel cands leads := by
      unfold trimLeads; rw [if_pos hl]
    rw [hgo, trimLeadsGo_spec rel cands leads hnd]
    refine ⟨?_, ?_, rfl⟩
    · intro c hc lead _
      exact objGet_filter_notin (urlKey c) (cands.map urlKey) leads
        (List.mem_map_of_mem urlKey hc)
    · rw [List.forall₂_map_right_iff, List.forall₂_same]
      intro c _
      cases hu : objGet (urlKey c) leads with
      | none =>
        exact ⟨fun _ => rfl, fun lead hlead => Option.noConfusion hlead⟩
      | some lead =>
        refine ⟨fun hc => Option.noConfusion hc, fun lead2 hlead2 => ?_⟩
        obtain rfl : lead = lead2 := by injection hlead2
        exact applyLead_spec rel c lead
  · have hnil : leads = [] := List.length_eq_zero.mp (by omega)
    subst hnil
    have hid : trimLeads rel cands [] = (cands, []) := by
      unfold trimLeads; rw [if_neg hl]
    rw [hid]
    refine ⟨?_, ?_, by simp⟩
    · intro c _ lead hlead
      exact absurd hlead (by simp [objGet])
    · rw [List.forall₂_same]
      intro c _
      refine ⟨fun _ => rfl, fun lead hlead => ?_⟩
      exact absurd hlead (by simp [objGet])

/-- Witness for C3: one candidate matched by a lead carrying a cached file
and a non-boolean `preferred`, plus one unmatched lead that survives. -/
theorem trimLeads_spec_witness :
    (objGet "http://x.example/a.json"
        (trimLeads id
          [{ provider := "x.example", service := "a", version := "1.0",
             md := { source := { url := some "http://x.example/a.json" } } }]
          [("http://x.example/a.json",
            { service := some "a", file := some "metadata/x.cache/a.json",
              preferred := some (JsPrim.jsStr "yes") }),
           ("http://x.example/new.json", { service := some "new" })]).2 = none) ∧
    (trimLeads id
        [{ provider := "x.example", service := "a", version := "1.0",
           md := { source := { url := some "http://x.example/a.json" } } }]
        [("http://x.example/a.json",
          { service := some "a", file := some "metadata/x.cache/a.json",
            preferred := some (JsPrim.jsStr "yes") }),
         ("http://x.example/new.json", { service := some "new" })]).2 =
      [("http://x.example/new.json", { service := some "new" })] := by
  obtain ⟨hrem, _, hfil⟩ := trimLeads_spec id
    [{ provider := "x.example", service := "a", version := "1.0",
       md := { source := { url := some "http://x.example/a.json" } } }]
    [("http://x.example/a.json",
      { service := some "a", file := some "metadata/x.cache/a.json",
        preferred := some (JsPrim.jsStr "yes") }),
     ("http://x.example/new.json", { service := some "new" })]
    (by decide)
  refine ⟨?_, ?_⟩
  · exact hrem
      { provider := "x.example", service := "a", version := "1.0",
        md := { source := { url := some "http://x.example/a.json" } } }
      (by simp)
      { service := some "a", file := some "metadata/x.cache/a.json",
        preferred := some (JsPrim.jsStr "yes") } (by decide)
  · rw [hfil]
    decide

/-- **C3** counterexample to the unrestricted reading: two candidates may
share the same source url, and then only the first absorbs the lead —
after `trimLeads` the second candidate, whose `md.source.url` was a key of
the leads map and whose lead carried a `file`, still has `md.cached =
none` (while the first received the cached path), because the first
iteration already deleted the lead from the shared map. -/
theorem trimLeads_spec_counterexample :
    ((trimLeads id
        [{ provider := "x.example", service := "a", version := "1.0",
           md := { source := { url := some "http://x.example/u.json" } } },
         { provider := "x.example", service := "b", version := "1.0",
           md := { source := { url := some "http://x.example/u.json" } } }]
        [("http://x.example/u.json",
          { service := some "a",
            file := some "metadata/x.cache/u.json" })]).1.getD 0 {}).md.cached =
      some "metadata/x.cache/u.json" ∧
    ((trimLeads id
        [{ provider := "x.example", service := "a", version := "1.0",
           md := { source := { url := some "http://x.example/u.json" } } },
         { provider := "x.example", service := "b", version := "1.0",
           md := { source := { url := some "http://x.example/u.json" } } }]
        [("http://x.example/u.json",
          { service := some "a",
            file := some "metadata/x.cache/u.json" })]).1.getD 1 {}).md.cached = none := by
  decide

end ApiRegistry

namespace ApiRegistry

/-! ## First-occurrence replacement facts (towards C4) -/

theorem replFirst_split (pat rep : List Char) (hne : pat ≠ []) :
    ∀ (pre suf : List Char),
      (∀ j, j < pre.length → ¬ occursAt pat (pre ++ (pat ++ suf)) j) →
      replFirst pat rep (pre ++ (pat ++ suf)) = pre ++ (rep ++ suf) := by
  intro pre
  induction pre with
  | nil =>
    intro suf _
    simp only [List.nil_append]
    have hpref : pat.isPrefixOf (pat ++ suf) = true :=
      List.isPrefixOf_iff_prefix.mpr (List.prefix_append pat suf)
    cases hl : pat ++ suf with
    | nil =>
      rcases List.append_eq_nil.mp hl with ⟨h1, _⟩
      exact absurd h1 hne
    | cons c cs =>
      rw [replFirst, if_pos (by rw [← hl]; exact hpref), ← hl, List.drop_left]
  | cons c pre2 ih =>
    intro suf hyp
    have h0 : ¬ pat.isPrefixOf (c :: (pre2 ++ (pat ++ suf))) = true := by
      have h1 := hyp 0 (by simp)
      simpa [occursAt, List.isPrefixOf_iff_prefix] using h1
    simp only [List.cons_append]
    rw [replFirst, if_neg h0, ih suf ?_]
    intro j hj
    have h2 := hyp (j + 1) (by simpa using Nat.succ_lt_succ hj)
    simpa [occursAt] using h2

theorem replFirst_no_occ (pat rep : List Char) :
    ∀ (l : List Char), (∀ j, j < l.length → ¬ occursAt pat l j) →
      replFirst pat rep l = l := by
  intro l
  induction l with
  | nil => intro _; rfl
  | cons c cs ih =>
    intro hyp
    have h0 : ¬ pat.isPrefixOf (c :: cs) = true := by
      have h1 := hyp 0 (by simp)
      simpa [occursAt, List.isPrefixOf_iff_prefix] using h1
    rw [replFirst, if_neg h0, ih ?_]
    intro j hj
    have h2 := hyp (j + 1) (by simpa using Nat.succ_lt_succ hj)
    simpa [occursAt] using h2

theorem replFirst_append_right (pat rep : List Char) :
    ∀ (l1 l2 : List Char),
      (∀ j, j < l1.length → ¬ occursAt pat (l1 ++ l2) j) →
      replFirst pat rep (l1 ++ l2) = l1 ++ replFirst pat rep l2 := by
  intro l1
  induction l1 with
  | nil =>
    intro l2 _
    simp
  | cons c t ih =>
    intro l2 hyp
    have h0 : ¬ pat.isPrefixOf (c :: (t ++ l2)) = true := by
      have h1 := hyp 0 (by simp)
      simpa [occursAt, List.isPrefixOf_iff_prefix] using h1
    simp only [List.cons_append]
    rw [replFirst, if_neg h0, ih l2 ?_]
    intro j hj
    have h2 := hyp (j + 1) (by simpa using Nat.succ_lt_succ hj)
    simpa [occursAt] using h2

end ApiRegistry

namespace ApiRegistry

/-- **C4** — Version rename: when the re-fetched, valid document reports a
(cleansed) `info.version` different from the candidate's version key, the
update block moves the entry: the service map loses the old version key,
the new version key holds exactly the updated entry, and — for swagger and
openapi documents alike — the entry's filename has the old version path
segment (its first occurrence, which is the only one for a well-formed
path) replaced by the new one, the rest of the path unchanged except that
an openapi document additionally renames the `swagger.yaml` basename to
`openapi.yaml` (hence the side condition that `swagger.yaml` occurs at
most in the part after the version segment, as in every registry path,
and the side condition keeping the new version free of the JS
`$`-substitution patterns of `String.replace`). -/
theorem update_version_rename (o : UDoc) (i : ApiInfo)
    (parent : List (String × VersionEntry)) (version : String) (md : VersionEntry)
    (fn : String) (pre suf : List Char)
    (hinfo : o.info = some i)
    (hne : cleanseVersion i.version ≠ version)
    (hfn : md.filename = some fn)
    (hsplit : fn.data = pre ++ ("/" ++ version ++ "/").data ++ suf)
    (hfirst : ∀ j, j < pre.length → ¬ occursAt ("/" ++ version ++ "/").data fn.data j)
    (hsw : ∀ j, j < (pre ++ ("/" ++ cleanseVersion i.version ++ "/").data).length →
      ¬ occursAt "swagger.yaml".data
          ((pre ++ ("/" ++ cleanseVersion i.version ++ "/").data) ++ suf) j)
    (hdollar : ¬ '$' ∈ (cleanseVersion i.version).data) :
    objGet version (renameBlock o parent version md).1 = none ∧
    objGet (cleanseVersion i.version) (renameBlock o parent version md).1 =
      some (renameBlock o parent version md).2 ∧
    (renameBlock o parent version md).2.filename =
      some (String.mk (pre ++ ("/" ++ cleanseVersion i.version ++ "/").data ++
        (if isTruthyStr o.openapi then
          replFirst "swagger.yaml".data "openapi.yaml".data suf
         else suf))) ∧
    (isTruthyStr o.openapi = false →
      (renameBlock o parent version md).2 =
        { md with
          filename :=
              some (String.mk (pre ++ ("/" ++ cleanseVersion i.version ++ "/").data ++ suf)) }) := by
  have hpat : ("/" ++ version ++ "/").data ≠ [] := by
    intro hnil
    rw [String.data_append] at hnil
    rcases List.append_eq_nil.mp hnil with ⟨_, h2⟩
    simp at h2
  have hrepl : jsReplace fn ("/" ++ version ++ "/") ("/" ++ cleanseVersion i.version ++ "/")
      = String.mk (pre ++ ("/" ++ cleanseVersion i.version ++ "/").data ++ suf) := by
    unfold jsReplace
    refine congrArg String.mk ?_
    rw [hsplit, List.append_assoc, replFirst_split _ _ hpat pre suf ?_,
      ← List.append_assoc]
    intro j hj
    have := hfirst j hj
    rw [hsplit, List.append_assoc] at this
    exact this
  unfold renameBlock
  simp only [hinfo]
  rw [if_pos (Or.inl ⟨rfl, hne⟩), if_pos hne]
  refine ⟨objGet_objDelete_self version _, ?_, ?_, ?_⟩
  · rw [objGet_objDelete_ne (cleanseVersion i.version) version (fun hc => hne hc.symm),
      objGet_objSet_self]
  · by_cases htr : isTruthyStr o.openapi = true
    · rw [if_pos htr, hfn]
      simp only [Option.map_some']
      rw [hrepl, if_pos htr]
      refine congrArg some ?_
      unfold jsReplace
      refine congrArg String.mk ?_
      have hdata : (String.mk (pre ++ ("/" ++ cleanseVersion i.version ++ "/").data ++ suf)).data
          = pre ++ ("/" ++ cleanseVersion i.version ++ "/").data ++ suf := rfl
      rw [hdata,
        replFirst_append_right "swagger.yaml".data "openapi.yaml".data
          (pre ++ ("/" ++ cleanseVersion i.version ++ "/").data) suf hsw]
    · rw [if_neg htr, hfn]
      simp only [Option.map_some']
      rw [hrepl, if_neg htr]
  · intro htruthy
    rw [if_neg (by rw [htruthy]; exact Bool.false_ne_true)]
    rw [hfn]
    simp only [Option.map_some']
    rw [hrepl]

end ApiRegistry

namespace ApiRegistry

/-- Witness for C4: a swagger document at version `1.0.0` re-fetched as
`1.1.0` — the service map drops `1.0.0`, gains `1.1.0`, and the filename's
version segment is rewritten — and an openapi document on the same entry,
whose filename additionally gets the `swagger.yaml` → `openapi.yaml`
basename rename on top of the version-segment rewrite. -/
theorem update_version_rename_witness :
    objGet "1.0.0" (renameBlock
        { swagger := some "2.0", info := some { version := "1.1.0" } }
        [("1.0.0", { filename := some "APIs/example.com/1.0.0/swagger.yaml",
                     openapi := some "2.0" })]
        "1.0.0"
        { filename := some "APIs/example.com/1.0.0/swagger.yaml",
          openapi := some "2.0" }).1 = none ∧
    objGet "1.1.0" (renameBlock
        { swagger := some "2.0", info := some { version := "1.1.0" } }
        [("1.0.0", { filename := some "APIs/example.com/1.0.0/swagger.yaml",
                     openapi := some "2.0" })]
        "1.0.0"
        { filename := some "APIs/example.com/1.0.0/swagger.yaml",
          openapi := some "2.0" }).1 =
      some (renameBlock
        { swagger := some "2.0", info := some { version := "1.1.0" } }
        [("1.0.0", { filename := some "APIs/example.com/1.0.0/swagger.yaml",
                     openapi := some "2.0" })]
        "1.0.0"
        { filename := some "APIs/example.com/1.0.0/swagger.yaml",
          openapi := some "2.0" }).2 ∧
    (renameBlock
        { swagger := some "2.0", info := some { version := "1.1.0" } }
        [("1.0.0", { filename := some "APIs/example.com/1.0.0/swagger.yaml",
                     openapi := some "2.0" })]
        "1.0.0"
        { filename := some "APIs/example.com/1.0.0/swagger.yaml",
          openapi := some "2.0" }).2.filename =
      some "APIs/example.com/1.1.0/swagger.yaml" ∧
    objGet "1.0.0" (renameBlock
        { openapi := some "3.0.0", info := some { version := "1.1.0" } }
        [("1.0.0", { filename := some "APIs/example.com/1.0.0/swagger.yaml",
                     openapi := some "2.0" })]
        "1.0.0"
        { filename := some "APIs/example.com/1.0.0/swagger.yaml",
          openapi := some "2.0" }).1 = none ∧
    (renameBlock
        { openapi := some "3.0.0", info := some { version := "1.1.0" } }
        [("1.0.0", { filename := some "APIs/example.com/1.0.0/swagger.yaml",
                     openapi := some "2.0" })]
        "1.0.0"
        { filename := some "APIs/example.com/1.0.0/swagger.yaml",
          openapi := some "2.0" }).2.filename =
      some "APIs/example.com/1.1.0/openapi.yaml" := by
  obtain ⟨h1, h2, _, h4⟩ := update_version_rename
    { swagger := some "2.0", info := some { version := "1.1.0" } }
    { version := "1.1.0" }
    [("1.0.0", { filename := some "APIs/example.com/1.0.0/swagger.yaml",
                 openapi := some "2.0" })]
    "1.0.0"
    { filename := some "APIs/example.com/1.0.0/swagger.yaml", openapi := some "2.0" }
    "APIs/example.com/1.0.0/swagger.yaml"
    "APIs/example.com".data "swagger.yaml".data
    rfl (by decide) rfl (by decide) (by decide) (by decide) (by decide)
  obtain ⟨g1, _, g3, _⟩ := update_version_rename
    { openapi := some "3.0.0", info := some { version := "1.1.0" } }
    { version := "1.1.0" }
    [("1.0.0", { filename := some "APIs/example.com/1.0.0/swagger.yaml",
                 openapi := some "2.0" })]
    "1.0.0"
    { filename := some "APIs/example.com/1.0.0/swagger.yaml", openapi := some "2.0" }
    "APIs/example.com/1.0.0/swagger.yaml"
    "APIs/example.com".data "swagger.yaml".data
    rfl (by decide) rfl (by decide) (by decide) (by decide) (by decide)
  have hcv : cleanseVersion "1.1.0" = "1.1.0" := by decide
  rw [hcv] at h2
  refine ⟨h1, h2, ?_, g1, ?_⟩
  · rw [h4 rfl]
    decide
  · rw [g3]
    decide

end ApiRegistry

namespace ApiRegistry

/-- **C7** — Unreachable document clears preferred: in the non-OK branch
of the `update` command, a candidate whose `md.preferred` is strictly
`true` ends with `md.preferred = false` (the write-back to disk having
succeeded), `md.statusCode` holding the failed status, a Failure Ledger
record at `failures[provider][service][version]` whose `status` is the
response status, the process exit code set to 1, and `update` returning
`false`. -/
theorem update_nonok_clears_preferred (c : Candidate) (resp : Response)
    (failures : Failures) (fsOk : Bool)
    (hok : resp.ok = false)
    (hpref : c.md.preferred = some (JsPrim.jsBool true))
    (hfs : fsOk = true) :
    (updateNonOk c resp failures fsOk).1.md.preferred = some (JsPrim.jsBool false) ∧
    (updateNonOk c resp failures fsOk).1.md.statusCode = some resp.status ∧
    ((objGet c.provider (updateNonOk c resp failures fsOk).2.1).bind
        (objGet c.service)).bind (objGet c.version) =
      some { status := some resp.status, error := "", context := none } ∧
    (updateNonOk c resp failures fsOk).2.2.1 = 1 ∧
    (updateNonOk c resp failures fsOk).2.2.2 = false := by
  subst hfs
  unfold updateNonOk updatePreferredFlag fail failSet
  by_cases hsc : some resp.status ≠ c.md.statusCode
  · rw [if_pos hsc]
    cases hh : resp.headers <;>
      simp [hpref, objGet_objSet_self]
  · rw [if_neg hsc]
    have hsc2 : c.md.statusCode = some resp.status := (not_not.mp hsc).symm
    cases hh : resp.headers <;>
      simp [hpref, hsc2, objGet_objSet_self]

/-- Witness for C7: a preferred candidate whose re-fetch came back 404. -/
theorem update_nonok_clears_preferred_witness :
    (updateNonOk
        { provider := "example.com", service := "svc", version := "1.0",
          md := { preferred := some (JsPrim.jsBool true),
                  filename := some "APIs/example.com/svc/1.0/openapi.yaml" } }
        { ok := false, status := 404 } [] true).1.md.preferred =
      some (JsPrim.jsBool false) ∧
    ((objGet "example.com" (updateNonOk
        { provider := "example.com", service := "svc", version := "1.0",
          md := { preferred := some (JsPrim.jsBool true),
                  filename := some "APIs/example.com/svc/1.0/openapi.yaml" } }
        { ok := false, status := 404 } [] true).2.1).bind
      (objGet "svc")).bind (objGet "1.0") =
      some { status := some 404, error := "", context := none } ∧
    (updateNonOk
        { provider := "example.com", service := "svc", version := "1.0",
          md := { preferred := some (JsPrim.jsBool true),
                  filename := some "APIs/example.com/svc/1.0/openapi.yaml" } }
        { ok := false, status := 404 } [] true).2.2.1 = 1 := by
  obtain ⟨h1, _, h3, h4, _⟩ := update_nonok_clears_preferred
    { provider := "example.com", service := "svc", version := "1.0",
      md := { preferred := some (JsPrim.jsBool true),
              filename := some "APIs/example.com/svc/1.0/openapi.yaml" } }
    { ok := false, status := 404 } [] true rfl rfl rfl
  exact ⟨h1, h3, h4⟩

end ApiRegistry

namespace ApiRegistry

/-- **C8** — Save no-op / idempotence: with the `metadataConsistent` flag
set, `saveMetadata` returns success immediately with no file writes and no
registry change; and a successful save (some serialization produced a
string) sets that flag, so a second `saveMetadata` in the same process is
an idempotent no-op returning `true`. -/
theorem saveMetadata_idempotent (yamlS jsonS : Registry → Option String)
    (failS : Failures → Option String) (sortFn : Registry → Registry)
    (command : String) (st : SaveState) :
    (st.metadataConsistent = true →
      (saveMetadata yamlS jsonS failS sortFn command st).2.1 = [] ∧
      (saveMetadata yamlS jsonS failS sortFn command st).2.2 = true ∧
      (saveMetadata yamlS jsonS failS sortFn command st).1.metadata = st.metadata) ∧
    ((saveMetadata yamlS jsonS failS sortFn command st).2.2 = true →
      (saveMetadata yamlS jsonS failS sortFn command
          (saveMetadata yamlS jsonS failS sortFn command st).1).2.1 = [] ∧
      (saveMetadata yamlS jsonS failS sortFn command
          (saveMetadata yamlS jsonS failS sortFn command st).1).2.2 = true) := by
  constructor
  · intro hcons
    unfold saveMetadata
    rw [if_pos hcons]
    exact ⟨rfl, rfl, rfl⟩
  · intro hres
    have hcons2 :
        (saveMetadata yamlS jsonS failS sortFn command st).1.metadataConsistent = true := by
      unfold saveMetadata at hres ⊢
      by_cases hc : st.metadataConsistent = true
      · rw [if_pos hc]
        exact hc
      · rw [if_neg hc] at hres ⊢
        simp only [] at hres ⊢
        rw [if_pos hres]
    have key : ∀ st2 : SaveState, st2.metadataConsistent = true →
        (saveMetadata yamlS jsonS failS sortFn command st2).2.1 = [] ∧
        (saveMetadata yamlS jsonS failS sortFn command st2).2.2 = true := by
      intro st2 h2
      unfold saveMetadata
      rw [if_pos h2]
      exact ⟨rfl, rfl⟩
    exact key _ hcons2

end ApiRegistry

namespace ApiRegistry

/-- Witness for C8: a consistent state short-circuits, and after one
successful save the next save is a no-op returning `true`. -/
theorem saveMetadata_idempotent_witness :
    ((saveMetadata (fun _ => some "REG") (fun _ => some "JSON") (fun _ => some "FAIL")
        id "list" { metadataConsistent := true }).2.1 = [] ∧
      (saveMetadata (fun _ => some "REG") (fun _ => some "JSON") (fun _ => some "FAIL")
        id "list" { metadataConsistent := true }).2.2 = true ∧
      (saveMetadata (fun _ => some "REG") (fun _ => some "JSON") (fun _ => some "FAIL")
        id "list" { metadataConsistent := true }).1.metadata =
        ({ metadataConsistent := true } : SaveState).metadata) ∧
    ((saveMetadata (fun _ => some "REG") (fun _ => some "JSON") (fun _ => some "FAIL")
        id "update"
        (saveMetadata (fun _ => some "REG") (fun _ => some "JSON") (fun _ => some "FAIL")
          id "update" { metadataConsistent := false }).1).2.1 = [] ∧
      (saveMetadata (fun _ => some "REG") (fun _ => some "JSON") (fun _ => some "FAIL")
        id "update"
        (saveMetadata (fun _ => some "REG") (fun _ => some "JSON") (fun _ => some "FAIL")
          id "update" { metadataConsistent := false }).1).2.2 = true) := by
  constructor
  · exact (saveMetadata_idempotent (fun _ => some "REG") (fun _ => some "JSON")
      (fun _ => some "FAIL") id "list" { metadataConsistent := true }).1 rfl
  · exact (saveMetadata_idempotent (fun _ => some "REG") (fun _ => some "JSON")
      (fun _ => some "FAIL") id "update" { metadataConsistent := false }).2 rfl

/-- **C9** — Exit-code discipline: `fail` sets the process exit code to 1;
at save time an exit code of 1 is reset to success for the `update` run
kind, the sentinel "not yet run" code 99 is reset to success for every run
kind, and a serialization failure of the failure-ledger write does not
abort the primary registry save but sets the distinguished exit code 3. -/
theorem exit_code_discipline (yamlS jsonS : Registry → Option String)
    (failS : Failures → Option String) (sortFn : Registry → Registry) :
    (∀ (failures : Failures) (c : Candidate) (status : Option Nat)
        (err ctx : Option String), (fail failures c status err ctx).2 = 1) ∧
    (∀ (command : String) (st : SaveState), st.exitCode = some 1 → command = "update" →
        (st.metadataConsistent = true ∨ failS st.failures ≠ none) →
        (saveMetadata yamlS jsonS failS sortFn command st).1.exitCode = some 0) ∧
    (∀ (command : String) (st : SaveState), st.exitCode = some 99 →
        (st.metadataConsistent = true ∨ failS st.failures ≠ none) →
        (saveMetadata yamlS jsonS failS sortFn command st).1.exitCode = some 0) ∧
    (∀ (command : String) (st : SaveState) (s : String),
        st.metadataConsistent = false → failS st.failures = none →
        yamlS (stripData (if command = "sort" then sortFn st.metadata else st.metadata)) =
          some s →
        WriteEvent.registryWrite s ∈ (saveMetadata yamlS jsonS failS sortFn command st).2.1 ∧
        (saveMetadata yamlS jsonS failS sortFn command st).1.exitCode = some 3 ∧
        (saveMetadata yamlS jsonS failS sortFn command st).2.2 = true) := by
  refine ⟨fun _ _ _ _ _ => rfl, ?_, ?_, ?_⟩
  · intro command st h1 h2 h3
    by_cases hc : st.metadataConsistent = true
    · unfold saveMetadata
      simp [h1, h2, hc]
    · rcases h3 with h3 | h3
      · exact absurd h3 hc
      · cases hf : failS st.failures with
        | none => exact absurd hf h3
        | some fs =>
          unfold saveMetadata
          simp [h1, h2, hc, hf]
  · intro command st h1 h3
    by_cases hc : st.metadataConsistent = true
    · unfold saveMetadata
      simp [h1, hc]
    · rcases h3 with h3 | h3
      · exact absurd h3 hc
      · cases hf : failS st.failures with
        | none => exact absurd hf h3
        | some fs =>
          unfold saveMetadata
          simp [h1, hc, hf]
  · intro command st s h1 h2 h3
    unfold saveMetadata
    simp [h1, h2, h3]

end ApiRegistry

namespace ApiRegistry

/-- Witness for C9: a concrete `fail` call, the `update` reset of exit
code 1, the sentinel-99 reset, and a failure-ledger serialization failure
that still writes the registry and sets exit code 3. -/
theorem exit_code_discipline_witness :
    (fail [] { provider := "p", service := "s", version := "1.0" }
        (some 404) none none).2 = 1 ∧
    (saveMetadata (fun _ => some "REG") (fun _ => some "JSON") (fun _ => some "FAIL") id
        "update" { exitCode := some 1, metadataConsistent := true }).1.exitCode = some 0 ∧
    (saveMetadata (fun _ => some "REG") (fun _ => some "JSON") (fun _ => some "FAIL") id
        "list" { exitCode := some 99, metadataConsistent := true }).1.exitCode = some 0 ∧
    (WriteEvent.registryWrite "REG" ∈
        (saveMetadata (fun _ => some "REG") (fun _ => some "JSON") (fun _ => none) id
          "update" { metadataConsistent := false }).2.1 ∧
      (saveMetadata (fun _ => some "REG") (fun _ => some "JSON") (fun _ => none) id
          "update" { metadataConsistent := false }).1.exitCode = some 3 ∧
      (saveMetadata (fun _ => some "REG") (fun _ => some "JSON") (fun _ => none) id
          "update" { metadataConsistent := false }).2.2 = true) := by
  obtain ⟨hfail, hupd, hsent, _⟩ := exit_code_discipline (fun _ => some "REG")
    (fun _ => some "JSON") (fun _ => some "FAIL") id
  obtain ⟨_, _, _, hledger⟩ := exit_code_discipline (fun _ => some "REG")
    (fun _ => some "JSON") (fun _ => none) id
  refine ⟨hfail [] { provider := "p", service := "s", version := "1.0" }
      (some 404) none none, ?_, ?_, ?_⟩
  · exact hupd "update" { exitCode := some 1, metadataConsistent := true } rfl rfl
      (Or.inl rfl)
  · exact hsent "list" { exitCode := some 99, metadataConsistent := true } rfl (Or.inl rfl)
  · exact hledger "update" { metadataConsistent := false } "REG" rfl rfl rfl

end ApiRegistry

namespace ApiRegistry

end ApiRegistry
